import Mathlib

/-!
Verification of the orchestration scripts (multi-agent and sequential).

Each Python function under scrutiny is shallowly embedded as an executable
Lean definition; machine integers are `Int`/`Nat`, fallible paths return
`Option`, and in-place mutation of the JSON state is modelled by explicit
state passing.  Strings are modelled as `String` or `List Char`
(`List Char` where character-level scanning matters).
-/

namespace Orchestration

/-! ### Generic helpers mirroring Python built-ins -/

/-- Python `str.isspace` / regex `\s` for the ASCII range (the inputs the
scripts handle): space, tab, newline, carriage return, vertical tab,
form feed. -/
def pyIsSpace (c : Char) : Bool :=
  c = ' ' || c = '\t' || c = '\n' || c = '\r' || c = Char.ofNat 11 || c = Char.ofNat 12

/-- Python `str.strip()` on a character list. -/
def pyStrip (l : List Char) : List Char :=
  ((l.dropWhile pyIsSpace).reverse.dropWhile pyIsSpace).reverse

/-- Worker for `dedupFirst`: keep elements not yet seen, in order. -/
def dedupFirstAux (seen : List String) : List String → List String
  | [] => []
  | a :: l =>
      if seen.contains a then dedupFirstAux seen l
      else a :: dedupFirstAux (a :: seen) l

/-- Python `list(dict.fromkeys(xs))`: de-duplicate keeping the first
occurrence of each element, preserving order. -/
def dedupFirst (l : List String) : List String :=
  dedupFirstAux [] l

/-! ### `fix_loop.py`: constants and `evaluate_fix_loop_action` -/

def MAX_FIX_ATTEMPTS : Nat := 3

def ESCALATION_THRESHOLD : Nat := 2

inductive FixLoopAction
  | PASS
  | RETRY
  | ESCALATE
  | HUMAN_FALLBACK
  deriving DecidableEq, Repr

/-- `should_enter_fix_loop`: severity in ["critical", "major"]. -/
def shouldEnterFixLoop (severity : String) : Bool :=
  (["critical", "major"] : List String).contains severity

/-- The only task field `evaluate_fix_loop_action` reads is
`task.get("fix_attempts", 0)` (number of completed fix attempts). -/
structure FLTask where
  fix_attempts : Nat
  deriving DecidableEq, Repr

/-- `evaluate_fix_loop_action(task, severity)`. -/
def evaluateFixLoopAction (task : FLTask) (severity : String) : FixLoopAction :=
  if ¬ shouldEnterFixLoop severity then FixLoopAction.PASS
  else
    let completedAttempts := task.fix_attempts
    if completedAttempts ≥ MAX_FIX_ATTEMPTS then FixLoopAction.HUMAN_FALLBACK
    else if completedAttempts ≥ ESCALATION_THRESHOLD then FixLoopAction.ESCALATE
    else FixLoopAction.RETRY

/-! ### Timeout resolution (`codeagent_wrapper_utils.py` and the sequential
`dispatch_task.py`)

Both functions read `CODEX_TIMEOUT`, strip it, and run it through Python
`int(...)`.  The outcome of that shared prefix is one of: the variable is
empty/unset, it is non-numeric (`int` raises `ValueError`), or it parses to
an integer `n`.  That outcome is the input of the embedded functions. -/

inductive EnvNum
  | empty
  | nonNumeric
  | numeric (n : Int)
  deriving DecidableEq, Repr

/-- `resolve_codex_timeout_seconds(default_seconds, buffer_seconds)` from
`codeagent_wrapper_utils.py`: values > 10000 are treated as milliseconds,
result floored at 60, buffer added. -/
def resolveCodexTimeoutSeconds (raw : EnvNum) (defaultSeconds bufferSeconds : Int) : Int :=
  let timeoutSeconds : Int :=
    match raw with
    | EnvNum.empty => defaultSeconds
    | EnvNum.nonNumeric => defaultSeconds
    | EnvNum.numeric n =>
        if n > 0 then (if n > 10000 then n / 1000 else n) else defaultSeconds
  max 60 timeoutSeconds + max 0 bufferSeconds

/-- `_resolve_timeout_seconds(default_seconds)` from the sequential
`dispatch_task.py`: every positive numeric value is divided by 1000
(milliseconds), floored at 1 second. -/
def seqResolveTimeoutSeconds (raw : EnvNum) (defaultSeconds : Int) : Int :=
  match raw with
  | EnvNum.empty => defaultSeconds
  | EnvNum.nonNumeric => defaultSeconds
  | EnvNum.numeric ms => if ms ≤ 0 then defaultSeconds else max 1 (ms / 1000)

/-! ### Sequential `dispatch_task.py`: result classification

`dispatch_task` extracts from the wrapper's execution report a task result
carrying `message`, `error` and `exit_code` (plus the subprocess stderr),
then classifies it.  The classification step is embedded here. -/

/-- Python `needle in haystack` substring test, on character lists. -/
def containsSeq (needle : List Char) : List Char → Bool
  | [] => needle.isEmpty
  | c :: rest => needle.isPrefixOf (c :: rest) || containsSeq needle rest

/-- Python `needle in haystack` on strings. -/
def strContains (needle hay : String) : Bool :=
  containsSeq needle.toList hay.toList

/-- Python `str.strip()` on a `String`. -/
def pyStripS (s : String) : String :=
  ⟨pyStrip s.toList⟩

def doneMarker : String := "<promise>TASK_DONE</promise>"

def completeMarker : String := "<promise>COMPLETE</promise>"

def haltMarker : String := "<promise>HALT</promise>"

structure DispatchResult where
  success : Bool
  completed : Bool
  halted : Bool
  message : String
  output : String
  deriving DecidableEq, Repr

/-- The tail of `dispatch_task` (lines 527-558): classify the selected
wrapper task result from its message text, error text, exit code and the
subprocess stderr. -/
def classifyTaskResult (taskId messageText errText stderrText : String)
    (exitCode : Int) : DispatchResult :=
  let completed := strContains doneMarker messageText ||
    strContains completeMarker messageText
  let halted := strContains haltMarker messageText
  if halted then
    { success := true, completed := false, halted := true,
      message := "Task " ++ taskId ++ " halted - human input required",
      output := messageText }
  else if completed || (exitCode == 0) then
    { success := true, completed := true, halted := false,
      message := "Task " ++ taskId ++ " completed successfully",
      output := messageText }
  else
    { success := false, completed := false, halted := false,
      message := "Task " ++ taskId ++ " failed (exit " ++ toString exitCode ++
        "): " ++ (let e := pyStripS errText;
                  if e = "" then pyStripS stderrText else e),
      output := messageText }

/-! ### `spec_parser.py` / `fix_loop.py`: `expand_dependencies`

`expand_dependencies(dependencies, task_map)` only consults whether an id
is bound in the map and, if so, the bound task's `subtasks` list, so the map
is embedded as `String → Option (List String)`.  The Python recursion has
no structural measure (it diverges on a cyclic map), so the embedding
carries explicit fuel; with enough fuel on the acyclic maps the scripts
build, it computes the same list. -/

def expandDeps (sub : String → Option (List String)) :
    Nat → List String → List String
  | fuel, deps =>
    dedupFirst (deps.flatMap (fun depId =>
      match sub depId with
      | some subtaskIds =>
          if subtaskIds ≠ [] then
            match fuel with
            | 0 => [depId]
            | fuel' + 1 =>
                subtaskIds.flatMap (fun sid => expandDeps sub fuel' [sid])
          else [depId]
      | none => [depId]))
termination_by fuel _ => fuel

/-- The specification's description of the expansion of a single id: an id
naming a task with subtasks is replaced by the recursively flattened list
of that task's leaf descendants; every other id passes through
unchanged.  (Same fuel convention as `expandDeps`.) -/
def leafExpansion (sub : String → Option (List String)) :
    Nat → String → List String
  | fuel, d =>
    match sub d with
    | some subtaskIds =>
        if subtaskIds ≠ [] then
          match fuel with
          | 0 => [d]
          | fuel' + 1 => subtaskIds.flatMap (fun s => leafExpansion sub fuel' s)
        else [d]
    | none => [d]
termination_by fuel _ => fuel

/-! ### `consolidate_reviews.py` and the state-mutating parts of
`fix_loop.py` it calls

The `AGENT_STATE` JSON dictionary is embedded as `CState`; review findings
and review-history entries as structures with the fields the scripts read;
serialized final reports as association lists of JSON values, so that which
keys `FinalReport.to_dict` emits is observable.  `datetime.now(...)` is
modelled by an explicit `now` argument. -/

inductive JVal
  | s (v : String)
  | n (v : Nat)
  deriving DecidableEq, Repr

/-- A review finding record (`{task_id, severity, summary, details}`). -/
structure Finding where
  task_id : String
  severity : String
  summary : String
  details : String
  deriving DecidableEq, Repr

/-- A `review_history` entry as appended by `enter_fix_loop`. -/
structure RHEntry where
  attempt : Nat
  severity : String
  findings : List Finding
  reviewed_at : String
  deriving DecidableEq, Repr

/-- A `blocked_items` entry as appended by `block_dependent_tasks`. -/
structure BlockedItem where
  task_id : String
  blocking_reason : String
  dependent_tasks : List String
  created_at : String
  deriving DecidableEq, Repr

/-- A task record in `AGENT_STATE`, restricted to the fields the
consolidation / fix-loop code reads or writes. -/
structure CTask where
  task_id : String
  status : String
  subtasks : List String
  dependencies : List String
  parent_id : Option String
  fix_attempts : Nat
  last_review_severity : Option String
  review_history : List RHEntry
  blocked_reason : Option String
  blocked_by : Option String
  completed_at : Option String
  deriving DecidableEq, Repr

/-- The `AGENT_STATE` dictionary (fields touched by consolidation). -/
structure CState where
  tasks : List CTask
  review_findings : List Finding
  final_reports : List (List (String × JVal))
  blocked_items : List BlockedItem
  deriving DecidableEq, Repr

/-- `dict.get` on a serialized record. -/
def lookupKey (rep : List (String × JVal)) (k : String) : Option JVal :=
  (rep.find? (fun kv => kv.1 = k)).map (fun kv => kv.2)

/-- Python `{t["task_id"]: t for t in tasks}[tid]`: last occurrence wins. -/
def lookupLastTask (tasks : List CTask) (tid : String) : Option CTask :=
  tasks.reverse.find? (fun t => t.task_id = tid)

/-- Modify (in place) the first task with the given id, as mutating the
object found by `next(...)` does. -/
def modifyFirstById (tid : String) (f : CTask → CTask) : List CTask → List CTask
  | [] => []
  | t :: ts =>
      if t.task_id = tid then f t :: ts else t :: modifyFirstById tid f ts

/-- Modify the task the last-wins task map binds to the id. -/
def modifyLastById (tid : String) (f : CTask → CTask) (ts : List CTask) :
    List CTask :=
  (modifyFirstById tid f ts.reverse).reverse

def SEVERITY_ORDER : List String := ["critical", "major", "minor", "none"]

/-- `get_review_findings_for_task(state, task_id)`. -/
def getReviewFindingsForTask (state : CState) (taskId : String) : List Finding :=
  state.review_findings.filter (fun f => f.task_id = taskId)

/-- `determine_overall_severity(findings)`: highest severity present. -/
def determineOverallSeverity (findings : List Finding) : String :=
  if findings = [] then "none"
  else
    let severities := findings.map (fun f => f.severity)
    match SEVERITY_ORDER.find? (fun sev => severities.contains sev) with
    | some sev => sev
    | none => "none"

/-- `generate_summary(findings, task_id)`. -/
def generateSummary (findings : List Finding) (taskId : String) : String :=
  if findings = [] then "No review findings for task " ++ taskId
  else
    let parts := (SEVERITY_ORDER.filterMap (fun sev =>
      let count := (findings.filter (fun f => f.severity = sev)).length
      if count > 0 then some (toString count ++ " " ++ sev) else none))
    let overall := determineOverallSeverity findings
    let nStr := toString findings.length
    let partsStr := String.intercalate ", " parts
    if overall = "none" then
      "Task " ++ taskId ++ ": All " ++ nStr ++ " review(s) passed with no issues"
    else if overall = "minor" then
      "Task " ++ taskId ++ ": " ++ nStr ++
        " review(s) completed with minor issues (" ++ partsStr ++ ")"
    else if overall = "major" then
      "Task " ++ taskId ++ ": " ++ nStr ++ " review(s) found major issues (" ++
        partsStr ++ ")"
    else
      "Task " ++ taskId ++ ": CRITICAL issues found in " ++ nStr ++
        " review(s) (" ++ partsStr ++ ")"

/-- The `FinalReport` dataclass.  `__post_init__` fills `created_at` with
the current time when empty; `consolidate_findings` never passes one, so
the embedded constructor takes the clock value directly. -/
structure FinalReport where
  task_id : String
  overall_severity : String
  summary : String
  finding_count : Nat
  findings : List Finding
  created_at : String
  deriving DecidableEq, Repr

/-- `FinalReport.to_dict()`: the serialized record.  (Note: the Python
method emits exactly these five keys; the `findings` list is not among
them.) -/
def finalReportToDict (r : FinalReport) : List (String × JVal) :=
  [("task_id", JVal.s r.task_id),
   ("overall_severity", JVal.s r.overall_severity),
   ("summary", JVal.s r.summary),
   ("finding_count", JVal.n r.finding_count),
   ("created_at", JVal.s r.created_at)]

/-- `consolidate_findings(state, task_id)` (with the clock passed in). -/
def consolidateFindings (now : String) (state : CState) (taskId : String) :
    Option FinalReport :=
  let findings := getReviewFindingsForTask state taskId
  if findings = [] then none
  else some
    { task_id := taskId
      overall_severity := determineOverallSeverity findings
      summary := generateSummary findings taskId
      finding_count := findings.length
      findings := findings
      created_at := now }

/-- `has_existing_final_report(state, task_id)`. -/
def hasExistingFinalReport (state : CState) (taskId : String) : Bool :=
  state.final_reports.any (fun rep =>
    match lookupKey rep "task_id" with
    | some (JVal.s v) => v = taskId
    | _ => false)

/-- `add_final_report(state, report)`. -/
def addFinalReport (state : CState) (report : FinalReport) : CState :=
  { state with final_reports := state.final_reports ++ [finalReportToDict report] }

/-- `update_task_to_completed(state, task_id)` (clock passed in). -/
def updateTaskToCompleted (now : String) (state : CState) (taskId : String) :
    CState :=
  match lookupLastTask state.tasks taskId with
  | none => state
  | some task =>
      let setDone := fun (t : CTask) =>
        { t with status := "completed", completed_at := some now }
      let ts1 := modifyLastById taskId setDone state.tasks
      let ts2 := task.subtasks.foldl (fun acc sid =>
        match lookupLastTask acc sid with
        | some _ => modifyLastById sid setDone acc
        | none => acc) ts1
      { state with tasks := ts2 }

/-- The subtasks map `get_all_dependent_task_ids` builds (ids that are
falsy, i.e. empty, are skipped; last occurrence wins). -/
def subtasksMap (state : CState) (tid : String) : Option (List String) :=
  if tid = "" then none
  else (lookupLastTask state.tasks tid).map (fun t => t.subtasks)

/-- The reverse-dependency relation of `get_all_dependent_task_ids`:
ids of the tasks whose expanded dependencies contain `d`. -/
def reverseDeps (state : CState) (expFuel : Nat) (d : String) : List String :=
  (state.tasks.filter (fun t =>
    (expandDeps (subtasksMap state) expFuel t.dependencies).contains d)).map
    (fun t => t.task_id)

/-- The BFS of `get_all_dependent_task_ids`, with fuel (the Python loop's
termination relies on `visited` saturating). -/
def bfsClosure (next : String → List String) :
    Nat → List String → List String → List String
  | 0, visited, _ => visited
  | _ + 1, visited, [] => visited
  | fuel + 1, visited, current :: queue =>
      if visited.contains current then bfsClosure next fuel visited queue
      else
        let visited' := visited ++ [current]
        bfsClosure next fuel visited'
          (queue ++ (next current).filter (fun d => ¬ visited'.contains d))

/-- `get_all_dependent_task_ids(state, task_id)` (fuel for the dependency
expansion and the BFS). -/
def getAllDependentTaskIds (state : CState) (taskId : String)
    (expFuel bfsFuel : Nat) : List String :=
  let parentId :=
    match state.tasks.find? (fun t => t.task_id = taskId) with
    | some t => t.parent_id
    | none => none
  let startQueue :=
    taskId :: (match parentId with
      | some p => if p ≠ "" then [p] else []
      | none => [])
  let visited := bfsClosure (reverseDeps state expFuel) bfsFuel [] startQueue
  let visited := visited.filter (fun x => x ≠ taskId)
  match parentId with
  | some p => if p ≠ "" then visited.filter (fun x => x ≠ p) else visited
  | none => visited

/-- `block_dependent_tasks(state, task_id, reason)` (clock and fuel passed
in). -/
def blockDependentTasks (now : String) (expFuel bfsFuel : Nat)
    (state : CState) (taskId reason : String) : CState :=
  let dependentIds := getAllDependentTaskIds state taskId expFuel bfsFuel
  let tasks' := state.tasks.map (fun t =>
    if dependentIds.contains t.task_id ∧
        ¬ (["completed", "blocked"] : List String).contains t.status then
      { t with status := "blocked", blocked_reason := some reason,
               blocked_by := some taskId }
    else t)
  { state with
      tasks := tasks'
      blocked_items := state.blocked_items ++
        [{ task_id := taskId, blocking_reason := reason,
           dependent_tasks := dependentIds, created_at := now }] }

/-- `enter_fix_loop(state, task_id, review_findings)` (clock and fuel
passed in). -/
def enterFixLoop (now : String) (expFuel bfsFuel : Nat) (state : CState)
    (taskId : String) (reviewFindings : List Finding) : CState :=
  match state.tasks.find? (fun t => t.task_id = taskId) with
  | none => state
  | some task =>
      let severities := reviewFindings.map (fun f => f.severity)
      let overallSeverity :=
        if severities.contains "critical" then "critical"
        else if severities.contains "major" then "major"
        else "minor"
      let completedAttempts := task.fix_attempts
      let entry : RHEntry :=
        { attempt := completedAttempts, severity := overallSeverity,
          findings := reviewFindings, reviewed_at := now }
      let tasks1 := modifyFirstById taskId (fun t =>
        { t with status := "fix_required",
                 last_review_severity := some overallSeverity,
                 review_history := t.review_history ++ [entry] }) state.tasks
      blockDependentTasks now expFuel bfsFuel { state with tasks := tasks1 }
        taskId
        ("Upstream task " ++ taskId ++ " requires fixes (" ++ overallSeverity ++ ")")

/-- `consolidate_single_task(state, task_id, auto_complete)`: returns the
created report (if any) and the updated state. -/
def consolidateSingleTask (now : String) (expFuel bfsFuel : Nat)
    (state : CState) (taskId : String) (autoComplete : Bool) :
    Option FinalReport × CState :=
  if hasExistingFinalReport state taskId then (none, state)
  else
    match consolidateFindings now state taskId with
    | none => (none, state)
    | some report =>
        let state1 := addFinalReport state report
        if shouldEnterFixLoop report.overall_severity then
          (some report,
            enterFixLoop now expFuel bfsFuel state1 taskId report.findings)
        else if autoComplete then
          (some report, updateTaskToCompleted now state1 taskId)
        else (some report, state1)

/-! ### `dispatch_batch.py`: `detect_file_conflicts` and
`partition_by_conflicts`

A task is embedded by the fields the partition reads: `task_id`, `writes`,
`reads` (Python's falsy `None`/`[]` both become `[]`). -/

structure DTask where
  task_id : String
  writes : List String
  reads : List String
  deriving DecidableEq, Repr

structure FileConflict where
  task_a : String
  task_b : String
  files : List String
  deriving DecidableEq, Repr

/-- `detect_file_conflicts(tasks)`: write-write conflicts over ordered
pairs (i < j).  Python materializes `files` as `list(set(a) & set(b))`
whose iteration order is unspecified; the embedding lists the shared
elements in `writes_a` order.  Downstream only the id pair and
(non-)emptiness are consumed. -/
def detectFileConflicts : List DTask → List FileConflict
  | [] => []
  | a :: rest =>
      (rest.filterMap (fun b =>
        if a.writes.filter (fun f => b.writes.contains f) ≠ [] then
          some { task_a := a.task_id, task_b := b.task_id,
                 files := a.writes.filter (fun f => b.writes.contains f) }
        else none)) ++ detectFileConflicts rest

/-- `(x, y) in conflict_pairs` (the symmetric closure of the detected
conflict id pairs). -/
def conflictRelated (conflicts : List FileConflict) (x y : String) : Bool :=
  conflicts.any (fun c =>
    (c.task_a = x ∧ c.task_b = y) ∨ (c.task_a = y ∧ c.task_b = x))

/-- The inner loop of the greedy coloring: append the task to the first
batch in which it conflicts with nothing, else open a new batch. -/
def placeTask (conflicts : List FileConflict) (t : DTask) :
    List (List DTask) → List (List DTask)
  | [] => [[t]]
  | batch :: rest =>
      if batch.all (fun m => ! conflictRelated conflicts t.task_id m.task_id) then
        (batch ++ [t]) :: rest
      else batch :: placeTask conflicts t rest

/-- The greedy coloring over the write tasks, with the `assigned` id set
(a second task with an already-assigned id is skipped). -/
def greedyAssign (conflicts : List FileConflict) :
    List DTask → List String → List (List DTask) → List (List DTask)
  | [], _, batches => batches
  | t :: rest, assigned, batches =>
      if assigned.contains t.task_id then
        greedyAssign conflicts rest assigned batches
      else
        greedyAssign conflicts rest (assigned ++ [t.task_id])
          (placeTask conflicts t batches)

/-- The `no_manifest_tasks` bucket (no writes and no reads). -/
def noManifestTasks (tasks : List DTask) : List DTask :=
  tasks.filter (fun t => t.writes.isEmpty && t.reads.isEmpty)

/-- The `safe_tasks` bucket (has reads or writes). -/
def safeTasks (tasks : List DTask) : List DTask :=
  tasks.filter (fun t => !(t.writes.isEmpty && t.reads.isEmpty))

/-- `write_tasks = [t for t in safe_tasks if t.get("writes")]`. -/
def writeTasksOf (tasks : List DTask) : List DTask :=
  (safeTasks tasks).filter (fun t => !t.writes.isEmpty)

/-- `read_only_tasks = [t for t in safe_tasks if not t.get("writes")]`. -/
def readOnlyTasksOf (tasks : List DTask) : List DTask :=
  (safeTasks tasks).filter (fun t => t.writes.isEmpty)

/-- The `batches` list built from the safe tasks (greedy coloring of the
write tasks, then the read-only tasks merged into the first batch). -/
def mainBatchesOf (tasks : List DTask) : List (List DTask) :=
  if (safeTasks tasks).isEmpty then []
  else
    let wb := greedyAssign (detectFileConflicts (writeTasksOf tasks))
      (writeTasksOf tasks) [] []
    if (readOnlyTasksOf tasks).isEmpty then wb
    else
      match wb with
      | [] => [readOnlyTasksOf tasks]
      | b0 :: rest => (b0 ++ readOnlyTasksOf tasks) :: rest

/-- `partition_by_conflicts(tasks)`: the conflict-free batches followed by
one singleton batch per manifest-less task. -/
def partitionByConflicts (tasks : List DTask) : List (List DTask) :=
  mainBatchesOf tasks ++ (noManifestTasks tasks).map (fun t => [t])

/-- Write-disjointness of two tasks (no shared file in their `writes`). -/
def DisjW (a b : DTask) : Prop :=
  ∀ f, f ∈ a.writes → f ∉ b.writes

/-! ### `init_orchestration.py`: `update_parent_statuses`

The function reads each task's `task_id`, `subtasks` and `status` and
rewrites `status`, so tasks are embedded with those fields.  It iterates
`reversed(state["tasks"])`, mutating the shared task objects in place; the
embedding passes the task list explicitly and processes indices from the
last to the first.  The `task_map` is a Python dict built from `task_id`
(last occurrence wins), whose values alias the mutated objects, so a lookup
is embedded as a last-occurrence search in the current list. -/

structure PTask where
  task_id : String
  status : String
  subtasks : List String
  deriving DecidableEq, Repr

/-- `task_map[sid]` (built once, last occurrence wins, values aliased). -/
def lookupLastP (tasks : List PTask) (tid : String) : Option PTask :=
  tasks.reverse.find? (fun t => t.task_id = tid)

/-- The status derivation of `update_parent_statuses` from the (nonempty)
list of resolved subtask statuses. -/
def deriveParentStatus (statuses : List String) : String :=
  if statuses.all (fun s => s = "completed") then "completed"
  else if statuses.any (fun s => s = "blocked") then "blocked"
  else if statuses.any (fun s => s = "fix_required") then "fix_required"
  else if statuses.any (fun s =>
      (["in_progress", "pending_review", "under_review", "final_review"] :
        List String).contains s) then "in_progress"
  else "not_started"

/-- `[task_map[sid].get("status") for sid in subtask_ids if sid in task_map]`. -/
def subtaskStatuses (tasks : List PTask) (t : PTask) : List String :=
  t.subtasks.filterMap (fun sid => (lookupLastP tasks sid).map (fun u => u.status))

/-- Process the task at index `i` (one iteration of the loop body). -/
def updAt (tasks : List PTask) (i : Nat) : List PTask :=
  match tasks[i]? with
  | none => tasks
  | some t =>
      if t.subtasks = [] then tasks
      else if subtaskStatuses tasks t = [] then tasks
      else tasks.set i
        { t with status := deriveParentStatus (subtaskStatuses tasks t) }

/-- Process indices `k-1, k-2, ..., 0` (the reversed iteration). -/
def runDown : Nat → List PTask → List PTask
  | 0, ts => ts
  | i + 1, ts => runDown i (updAt ts i)

/-- `update_parent_statuses(state)` restricted to the task list. -/
def updateParentStatuses (tasks : List PTask) : List PTask :=
  runDown tasks.length tasks

/-- The projection of a task to the fields `update_parent_statuses` never
writes. -/
def taskProj (t : PTask) : String × List String :=
  (t.task_id, t.subtasks)

/-! ### Multi-agent `spec_parser.py`: `_parse_task_line` and `parse_tasks`

`_parse_task_line` applies the regex
`^[-*]\s*\[([xX\s~-])\](\*)?\s*(\d+(?:\.\d+)*)(?:\.)?\s+(.+)$` to the
stripped line.  The pattern is deterministic up to the bounded
backtracking around the id's optional trailing dot, which the embedding
resolves explicitly: the dotted-group loop `(?:\.\d+)*` is maximal, the
optional dot is taken when present, and the final `\s+(.+)$` requires a
whitespace gap and a nonempty, newline-free remainder (`.` does not match
a newline, and post-strip `$` can only match at the very end).  Character
classes are read over ASCII, the range the scripts process. -/

def isDigitC (c : Char) : Bool :=
  '0' ≤ c && c ≤ '9'

/-- The checkbox character class `[xX\s~-]`. -/
def isBoxChar (c : Char) : Bool :=
  c = 'x' || c = 'X' || pyIsSpace c || c = '~' || c = '-'

inductive MTaskStatus
  | not_started
  | in_progress
  | pending_review
  | under_review
  | fix_required
  | final_review
  | completed
  | blocked
  deriving DecidableEq, Repr

/-- `STATUS_MARKERS` lookup with the `.get(..., NOT_STARTED)` default
(whitespace other than a plain space is not a key, so it also maps to
`not_started`). -/
def pyStatusOf (c : Char) : MTaskStatus :=
  if c = 'x' || c = 'X' then MTaskStatus.completed
  else if c = '-' then MTaskStatus.in_progress
  else if c = '~' then MTaskStatus.blocked
  else MTaskStatus.not_started

/-- `^[-*]`: the mandatory list marker. -/
def scanMarker : List Char → Option (List Char)
  | m :: r => if m = '-' || m = '*' then some r else none
  | [] => none

/-- `\s*\[([xX\s~-])\]`. -/
def scanCheckbox (l : List Char) : Option (Char × List Char) :=
  match l.dropWhile pyIsSpace with
  | '[' :: c :: ']' :: r => if isBoxChar c then some (c, r) else none
  | _ => none

/-- `(\*)?`. -/
def scanStar : List Char → Bool × List Char
  | a :: r => if a = '*' then (true, r) else (false, a :: r)
  | [] => (false, [])

/-- The maximal `(?:\.\d+)*` loop; fuel is structural (callers pass the
input length, ample since each round consumes at least two characters). -/
def idLoop : Nat → List Char → List Char × List Char
  | fuel + 1, a :: c :: rest =>
      if a = '.' && isDigitC c then
        let ds := (c :: rest).takeWhile isDigitC
        let r1 := (c :: rest).dropWhile isDigitC
        let (more, r2) := idLoop fuel r1
        ('.' :: (ds ++ more), r2)
      else ([], a :: c :: rest)
  | _, other => ([], other)

/-- `\s*(\d+(?:\.\d+)*)`. -/
def scanId (l : List Char) : Option (List Char × List Char) :=
  let r := l.dropWhile pyIsSpace
  match r.takeWhile isDigitC with
  | [] => none
  | ds =>
      let r1 := r.dropWhile isDigitC
      let (more, rest) := idLoop r1.length r1
      some (ds ++ more, rest)

/-- `(?:\.)?`. -/
def scanDot : List Char → List Char
  | a :: r => if a = '.' then r else a :: r
  | [] => []

/-- `\s+(.+)$` on the stripped tail: a whitespace gap, then a nonempty,
newline-free description. -/
def scanDescTail (r : List Char) : Option (List Char) :=
  match r with
  | w :: _ =>
      if pyIsSpace w then
        let d := r.dropWhile pyIsSpace
        if d ≠ [] ∧ d.contains '\n' = false then some d else none
      else none
  | [] => none

/-- `_parse_task_line(line)` restricted to the successful payload: the
Python function returns `(None, NOT_STARTED, False, "")` on failure, which
the embedding renders as `none`. -/
def parseTaskLine (line : List Char) :
    Option (String × MTaskStatus × Bool × String) :=
  match scanMarker (pyStrip line) with
  | none => none
  | some r0 =>
      match scanCheckbox r0 with
      | none => none
      | some (c, r2) =>
          let (isOpt, r3) := scanStar r2
          match scanId r3 with
          | none => none
          | some (idChars, r6) =>
              match scanDescTail (scanDot r6) with
              | none => none
              | some d =>
                  some (⟨idChars⟩, pyStatusOf c, isOpt, ⟨pyStrip d⟩)

/-- The Pass-1 gate `^[-*]\s*\[[xX\s~-]\]` of `parse_tasks`. -/
def matchesGate (l : List Char) : Bool :=
  match l with
  | m :: r0 =>
      (m = '-' || m = '*') &&
      (match r0.dropWhile pyIsSpace with
       | '[' :: c :: ']' :: _ => isBoxChar c
       | _ => false)
  | [] => false

/-- Python `str.split(sep)` for a single-character separator. -/
def splitChar (sep : Char) : List Char → List (List Char)
  | [] => [[]]
  | c :: rest =>
      if c = sep then [] :: splitChar sep rest
      else
        match splitChar sep rest with
        | [] => [[c]]
        | g :: gs => (c :: g) :: gs

/-- `_extract_file_manifest(details)`: collect `_writes:`/`_reads:`
entries (case-insensitive marker, comma-separated, stripped, non-empty),
de-duplicated preserving order. -/
def extractFileManifest (details : List String) : List String × List String :=
  let step := fun (acc : List String × List String) (detail : String) =>
    let ds := pyStrip detail.toList
    let low := ds.map Char.toLower
    if ("_writes:".toList).isPrefixOf low then
      let filesStr := pyStrip (ds.drop 8)
      if filesStr ≠ [] then
        let files := ((splitChar ',' filesStr).map pyStrip).filter
          (fun f => f ≠ [])
        (acc.1 ++ files.map (fun f => (⟨f⟩ : String)), acc.2)
      else acc
    else if ("_reads:".toList).isPrefixOf low then
      let filesStr := pyStrip (ds.drop 7)
      if filesStr ≠ [] then
        let files := ((splitChar ',' filesStr).map pyStrip).filter
          (fun f => f ≠ [])
        (acc.1, acc.2 ++ files.map (fun f => (⟨f⟩ : String)))
      else acc
    else acc
  let wr := details.foldl step ([], [])
  (dedupFirst wr.1, dedupFirst wr.2)

/-- A parsed task.  Fields `parse_tasks` never writes (`task_type`,
`dependencies`, and the fix-loop fields, all left at their dataclass
defaults) are elided. -/
structure MTask where
  task_id : String
  description : String
  status : MTaskStatus
  is_optional : Bool
  parent_id : Option String
  subtasks : List String
  details : List String
  writes : List String
  reads : List String
  deriving DecidableEq, Repr

structure MParseError where
  file : String
  line : Nat
  message : String
  deriving DecidableEq, Repr

structure MTasksParseResult where
  success : Bool
  tasks : List MTask
  errors : List MParseError
  deriving DecidableEq, Repr

/-- `task_id.rsplit(".", 1)[0]` for an id containing a dot. -/
def parentOfId (l : List Char) : List Char :=
  ((l.reverse.dropWhile (fun c => c ≠ '.')).drop 1).reverse

/-- Save `current_task` (details attached, manifest extracted) to the task
list, as the two save sites of Pass 1 do. -/
def saveCurrent (tasks : List MTask) (cur : Option MTask)
    (details : List String) : List MTask :=
  match cur with
  | none => tasks
  | some t =>
      let wr := extractFileManifest details
      tasks ++ [{ t with details := details, writes := wr.1, reads := wr.2 }]

/-- One iteration of Pass 1 of `parse_tasks`.  State:
`(tasks, errors, current_task, current_details, line_num)`.  Note the
divergence path the source has: on a gate-matching line whose id fails to
parse, the previous task has already been appended and `current_task` is
left unchanged (Python `continue`), so the same task is appended again at
the next save.  (Python aliases the appended object; the embedding appends
its current value, which coincides when no detail line intervenes.) -/
def pass1Step (st : List MTask × List MParseError × Option MTask ×
      List String × Nat) (line : List Char) :
    List MTask × List MParseError × Option MTask × List String × Nat :=
  let tasks := st.1
  let errors := st.2.1
  let cur := st.2.2.1
  let details := st.2.2.2.1
  let lineNum := st.2.2.2.2 + 1
  let stripped := pyStrip line
  if stripped = [] ∨ stripped.head? = some '#' then
    (tasks, errors, cur, details, lineNum)
  else if matchesGate stripped then
    let tasks1 := saveCurrent tasks cur details
    let details1 := match cur with
      | some _ => []
      | none => details
    match parseTaskLine stripped with
    | none =>
        (tasks1,
          errors ++
            [{ file := "tasks.md", line := lineNum,
               message := "Invalid task format: " ++ (⟨stripped⟩ : String) }],
          cur, details1, lineNum)
    | some (tid, status, isOpt, descr) =>
        let parent :=
          if tid.toList.contains '.' then
            some ((⟨parentOfId tid.toList⟩ : String))
          else none
        (tasks1, errors,
          some { task_id := tid, description := descr, status := status,
                 is_optional := isOpt, parent_id := parent, subtasks := [],
                 details := [], writes := [], reads := [] },
          [], lineNum)
  else if cur.isSome ∧ stripped.head? = some '-' then
    (tasks, errors, cur,
      details ++ [(⟨pyStrip (stripped.drop 1)⟩ : String)], lineNum)
  else if cur.isSome then
    (tasks, errors, cur, details ++ [(⟨stripped⟩ : String)], lineNum)
  else
    (tasks, errors, cur, details, lineNum)

/-- `_build_parent_subtask_relationships(tasks)` (Pass 2): all `subtasks`
lists are cleared, then each task with a truthy `parent_id` is appended to
the subtasks of the task its id maps to (last occurrence wins). -/
def buildParentSubtaskRelationships (tasks : List MTask) : List MTask :=
  tasks.enum.map (fun p =>
    let t := p.2
    if (tasks.drop (p.1 + 1)).all (fun u => u.task_id ≠ t.task_id) then
      { t with subtasks := (tasks.filter (fun u =>
          match u.parent_id with
          | some pid => pid ≠ "" && pid = t.task_id
          | none => false)).map (fun u => u.task_id) }
    else { t with subtasks := [] })

/-- `parse_tasks(content)`. -/
def parseTasks (content : String) : MTasksParseResult :=
  let lines := splitChar '\n' content.toList
  let st := lines.foldl pass1Step
    (([] : List MTask), ([] : List MParseError), (none : Option MTask),
      ([] : List String), 0)
  let tasks := saveCurrent st.1 st.2.2.1 st.2.2.2.1
  let tasks := buildParentSubtaskRelationships tasks
  { success := st.2.1.length = 0, tasks := tasks, errors := st.2.1 }

/-- The dotted id `\d+(\.\d+)*` assembled from its digit groups. -/
def idString (first : List Char) (groups : List (List Char)) : List Char :=
  first ++ groups.flatMap (fun g => '.' :: g)

/-- A line of the task-line grammar, assembled from its components:
marker, whitespace, checkbox, optional star, whitespace, dotted id,
optional trailing dot, whitespace gap, description. -/
def buildTaskLine (m : Char) (ws1 : List Char) (c : Char) (star : Bool)
    (ws2 : List Char) (first : List Char) (groups : List (List Char))
    (dot : Bool) (ws3 : List Char) (desc : List Char) : List Char :=
  m :: (ws1 ++ '[' :: c :: ']' :: ((if star then ['*'] else []) ++ (ws2 ++
    (idString first groups ++ ((if dot then ['.'] else []) ++
      (ws3 ++ desc))))))

/-! ### Concrete data used by witnesses and counterexamples -/

/-- Tasks for the C3 counterexample: the grandparent (id 1) appears after
its sub-parent (id 2) in the list, so the single reverse pass processes it
first and leaves it stale. -/
def c3Tasks : List PTask :=
  [{ task_id := "3", status := "completed", subtasks := [] },
   { task_id := "2", status := "in_progress", subtasks := ["3"] },
   { task_id := "1", status := "not_started", subtasks := ["2"] }]

/-- Tasks in document order (parent before subtask) for the C3 witness. -/
def c3GoodTasks : List PTask :=
  [{ task_id := "1", status := "not_started", subtasks := ["2"] },
   { task_id := "2", status := "completed", subtasks := [] }]

/-- Concrete state used to exhibit the serialized final-report record. -/
def c7Task : CTask :=
  { task_id := "1", status := "final_review", subtasks := [], dependencies := [],
    parent_id := none, fix_attempts := 0, last_review_severity := none,
    review_history := [], blocked_reason := none, blocked_by := none,
    completed_at := none }

def c7Finding : Finding :=
  { task_id := "1", severity := "minor", summary := "nit", details := "d" }

def c7State : CState :=
  { tasks := [c7Task], review_findings := [c7Finding], final_reports := [],
    blocked_items := [] }

/-- Concrete task map for the nested-dependency example of
`expand_dependencies`: `p` has subtasks `{a, b}` and `b` has subtasks
`{b1, b2}`. -/
def c8Map : String → Option (List String) := fun tid =>
  if tid = "p" then some ["a", "b"]
  else if tid = "b" then some ["b1", "b2"]
  else none

/-- Concrete task map binding no id at all (all dependencies are leaves). -/
def c8LeafMap : String → Option (List String) := fun _ => none

/-- C10 input: a valid task line, a gate-matching line whose id fails to
parse, then another valid task line. -/
def c10Content : String :=
  "- [ ] 1 First task\n- [ ] abc Bad line\n- [ ] 2 Second task"

def c10Task1 : MTask :=
  { task_id := "1", description := "First task",
    status := MTaskStatus.not_started, is_optional := false,
    parent_id := none, subtasks := [], details := [], writes := [],
    reads := [] }

def c10Task2 : MTask :=
  { task_id := "2", description := "Second task",
    status := MTaskStatus.not_started, is_optional := false,
    parent_id := none, subtasks := [], details := [], writes := [],
    reads := [] }

/-- The spec's three-task conflict example for C2's witness. -/
def c2Tasks : List DTask :=
  [{ task_id := "A", writes := ["x"], reads := [] },
   { task_id := "B", writes := ["x", "y"], reads := [] },
   { task_id := "C", writes := ["z"], reads := [] }]

end Orchestration

namespace Orchestration

/-! ## Theorems -/

/-- C1: for every task record and severity, `evaluate_fix_loop_action`
returns PASS when the severity is neither critical nor major; otherwise it
returns RETRY at 0 or 1 completed fix attempts, ESCALATE at exactly 2, and
HUMAN_FALLBACK at 3 or more. -/
theorem evaluate_fix_loop_action_spec (task : FLTask) (severity : String) :
    (severity ≠ "critical" ∧ severity ≠ "major" →
      evaluateFixLoopAction task severity = FixLoopAction.PASS) ∧
    ((severity = "critical" ∨ severity = "major") →
      (task.fix_attempts ≤ 1 →
        evaluateFixLoopAction task severity = FixLoopAction.RETRY) ∧
      (task.fix_attempts = 2 →
        evaluateFixLoopAction task severity = FixLoopAction.ESCALATE) ∧
      (3 ≤ task.fix_attempts →
        evaluateFixLoopAction task severity = FixLoopAction.HUMAN_FALLBACK)) := by
  constructor
  · intro h
    have hs : shouldEnterFixLoop severity = false := by
      simp [shouldEnterFixLoop, h.1, h.2]
    simp [evaluateFixLoopAction, hs]
  · intro h
    have hs : shouldEnterFixLoop severity = true := by
      rcases h with h | h <;> simp [shouldEnterFixLoop, h]
    refine ⟨?_, ?_, ?_⟩ <;> intro hn
    · have h3 : ¬ task.fix_attempts ≥ MAX_FIX_ATTEMPTS := by
        simp only [MAX_FIX_ATTEMPTS]; omega
      have h2 : ¬ task.fix_attempts ≥ ESCALATION_THRESHOLD := by
        simp only [ESCALATION_THRESHOLD]; omega
      simp [evaluateFixLoopAction, hs, h3, h2]
    · have h3 : ¬ task.fix_attempts ≥ MAX_FIX_ATTEMPTS := by
        simp only [MAX_FIX_ATTEMPTS]; omega
      have h2 : task.fix_attempts ≥ ESCALATION_THRESHOLD := by
        simp only [ESCALATION_THRESHOLD]; omega
      simp [evaluateFixLoopAction, hs, h3, h2]
    · have h3 : task.fix_attempts ≥ MAX_FIX_ATTEMPTS := by
        simp only [MAX_FIX_ATTEMPTS]; omega
      simp [evaluateFixLoopAction, hs, h3]

/-- Witness for C1 at a concrete input. -/
theorem evaluate_fix_loop_action_spec_witness :
    (("major" : String) = "critical" ∨ ("major" : String) = "major") ∧
    evaluateFixLoopAction ⟨2⟩ "major" = FixLoopAction.ESCALATE :=
  ⟨Or.inr rfl,
    ((evaluate_fix_loop_action_spec ⟨2⟩ "major").2 (Or.inr rfl)).2.1 rfl⟩

/-- C4 counterexample: for `CODEX_TIMEOUT = "120"` and default 7200 the
sequential resolver returns 1 (it always divides by 1000) while the
multi-agent resolver with zero buffer returns 120, so the two disagree. -/
theorem seq_timeout_differs_from_multi :
    seqResolveTimeoutSeconds (EnvNum.numeric 120) 7200 = 1 ∧
    resolveCodexTimeoutSeconds (EnvNum.numeric 120) 7200 0 = 120 ∧
    (1 : Int) ≠ 120 := by
  refine ⟨by decide, by decide, by decide⟩

/-- C4 amended: the sequential `_resolve_timeout_seconds` interprets every
positive numeric `CODEX_TIMEOUT` as milliseconds, returning
`max 1 (value / 1000)`; empty, non-numeric or non-positive values return the
caller-supplied default unchanged (no 60-second floor).  It agrees with the
multi-agent `resolve_codex_timeout_seconds` (same default, zero buffer) when
the value is in the milliseconds regime (> 10000) and the quotient is at
least 60 seconds, but not in general. -/
theorem seq_timeout_characterization (d : Int) :
    seqResolveTimeoutSeconds EnvNum.empty d = d ∧
    seqResolveTimeoutSeconds EnvNum.nonNumeric d = d ∧
    (∀ n : Int, n ≤ 0 → seqResolveTimeoutSeconds (EnvNum.numeric n) d = d) ∧
    (∀ n : Int, 0 < n →
      seqResolveTimeoutSeconds (EnvNum.numeric n) d = max 1 (n / 1000)) ∧
    (∀ n : Int, 10000 < n → 60 ≤ n / 1000 →
      seqResolveTimeoutSeconds (EnvNum.numeric n) d =
        resolveCodexTimeoutSeconds (EnvNum.numeric n) d 0) := by
  refine ⟨rfl, rfl, ?_, ?_, ?_⟩
  · intro n hn
    simp [seqResolveTimeoutSeconds, hn]
  · intro n hn
    have : ¬ n ≤ 0 := by omega
    simp [seqResolveTimeoutSeconds, this]
  · intro n hgt hq
    have h0 : 0 < n := by omega
    have hle : ¬ n ≤ 0 := by omega
    simp only [seqResolveTimeoutSeconds, resolveCodexTimeoutSeconds, hle, if_false,
      hgt, h0, if_pos]
    generalize n / 1000 = k at hq ⊢
    omega

/-- C6 counterexample: a message containing the literal
`<promise>COMPLETE</promise>` (but neither `<promise>TASK_DONE</promise>`
nor `<promise>HALT</promise>`) is classified as completed even though the
exit code is 1, refuting the claim that only the exit code decides in the
absence of the two markers. -/
theorem dispatch_complete_marker_refutes_claim :
    strContains doneMarker "<promise>COMPLETE</promise>" = false ∧
    strContains haltMarker "<promise>COMPLETE</promise>" = false ∧
    (classifyTaskResult "t1" "<promise>COMPLETE</promise>" "" "" 1).completed = true ∧
    (classifyTaskResult "t1" "<promise>COMPLETE</promise>" "" "" 1).success = true ∧
    (1 : Int) ≠ 0 :=
  ⟨rfl, rfl, rfl, rfl, by decide⟩

/-- C6 amended: for every wrapper task result whose message text contains
none of the literals `<promise>TASK_DONE</promise>`,
`<promise>COMPLETE</promise>` and `<promise>HALT</promise>`, the dispatch is
classified as completed (and successful) exactly when the exit code is 0,
and as a failure otherwise. -/
theorem dispatch_classification_amended
    (taskId messageText errText stderrText : String) (exitCode : Int)
    (hdone : strContains doneMarker messageText = false)
    (hcomplete : strContains completeMarker messageText = false)
    (hhalt : strContains haltMarker messageText = false) :
    ((classifyTaskResult taskId messageText errText stderrText exitCode).completed = true
      ↔ exitCode = 0) ∧
    ((classifyTaskResult taskId messageText errText stderrText exitCode).success = true
      ↔ exitCode = 0) := by
  unfold classifyTaskResult
  by_cases h : exitCode = 0 <;> simp [hdone, hcomplete, hhalt, h]

/-- Witness for C6's amended theorem at a concrete input. -/
theorem dispatch_classification_amended_witness :
    strContains doneMarker "all checks passed" = false ∧
    strContains completeMarker "all checks passed" = false ∧
    strContains haltMarker "all checks passed" = false ∧
    ((classifyTaskResult "t1" "all checks passed" "" "" 0).completed = true
      ↔ (0 : Int) = 0) :=
  ⟨rfl, rfl, rfl,
    (dispatch_classification_amended "t1" "all checks passed" "" "" 0
      rfl rfl rfl).1⟩

/-! First-occurrence de-duplication (`list(dict.fromkeys(...))`) theory,
used to characterize `expand_dependencies`. -/

theorem dedupFirstAux_congr (l : List String) :
    ∀ (s1 s2 : List String), (∀ x, s1.contains x = s2.contains x) →
      dedupFirstAux s1 l = dedupFirstAux s2 l := by
  induction l with
  | nil => intro s1 s2 _; rfl
  | cons a l ih =>
      intro s1 s2 h
      rw [dedupFirstAux, dedupFirstAux, h a]
      by_cases hc : s2.contains a = true
      · rw [if_pos hc, if_pos hc]
        exact ih s1 s2 h
      · rw [if_neg hc, if_neg hc]
        congr 1
        apply ih
        intro x
        have hx2 : decide (x ∈ s1) = decide (x ∈ s2) := by
          have := h x
          simpa using this
        simp [hx2]

theorem dedupFirstAux_push (a : String) (l : List String) :
    ∀ seen : List String, dedupFirstAux (a :: seen) l =
      dedupFirstAux seen (l.filter (fun x => decide (x ≠ a))) := by
  induction l with
  | nil => intro seen; rfl
  | cons b l ih =>
      intro seen
      by_cases hba : b = a
      · subst hba
        rw [dedupFirstAux,
          show (b :: l).filter (fun x => decide (x ≠ b)) =
            l.filter (fun x => decide (x ≠ b)) from by simp]
        rw [if_pos (by simp)]
        exact ih seen
      · rw [show (b :: l).filter (fun x => decide (x ≠ a)) =
          b :: l.filter (fun x => decide (x ≠ a)) from by simp [hba]]
        rw [dedupFirstAux, dedupFirstAux]
        by_cases hc : seen.contains b = true
        · have hbseen : b ∈ seen := by simpa using hc
          rw [if_pos (by simp [hbseen]), if_pos hc]
          exact ih seen
        · have hbseen : b ∉ seen := by simpa using hc
          rw [if_neg (by simp [hba, hbseen]), if_neg hc]
          congr 1
          rw [dedupFirstAux_congr l (b :: a :: seen) (a :: b :: seen)
            (fun x => by simp [Bool.or_left_comm])]
          exact ih (b :: seen)

theorem dedupFirst_nil : dedupFirst [] = [] := rfl

theorem dedupFirst_cons (a : String) (l : List String) :
    dedupFirst (a :: l) = a :: dedupFirst (l.filter (fun x => decide (x ≠ a))) := by
  unfold dedupFirst
  rw [dedupFirstAux, if_neg (by simp)]
  congr 1
  exact dedupFirstAux_push a l []

/-- Induction principle matching the first-occurrence recursion. -/
theorem dedupFirst_rec (motive : List String → Prop) (h0 : motive [])
    (h1 : ∀ a l, motive (l.filter (fun x => decide (x ≠ a))) →
      motive (a :: l)) :
    ∀ l, motive l := by
  have key : ∀ (n : Nat) (l : List String), l.length ≤ n → motive l := by
    intro n
    induction n with
    | zero =>
        intro l hl
        have : l = [] := List.eq_nil_of_length_eq_zero (Nat.le_zero.mp hl)
        rw [this]
        exact h0
    | succ n ihn =>
        intro l hl
        cases l with
        | nil => exact h0
        | cons a l =>
            refine h1 a l (ihn _ ?_)
            have := List.length_filter_le (fun x => decide (x ≠ a)) l
            simp only [List.length_cons] at hl
            omega
  exact fun l => key l.length l (le_refl _)

theorem mem_dedupFirst (x : String) (l : List String) :
    x ∈ dedupFirst l ↔ x ∈ l := by
  induction l using dedupFirst_rec with
  | h0 => simp [dedupFirst_nil]
  | h1 a l ih =>
      rw [dedupFirst_cons]
      simp only [List.mem_cons, ih, List.mem_filter, decide_eq_true_eq, ne_eq]
      by_cases hx : x = a <;> simp [hx]

theorem dedupFirst_filter (p : String → Bool) (l : List String) :
    dedupFirst (l.filter p) = (dedupFirst l).filter p := by
  induction l using dedupFirst_rec with
  | h0 => simp [dedupFirst_nil]
  | h1 a l ih =>
      rw [dedupFirst_cons]
      by_cases hpa : p a
      · rw [show ((a :: l).filter p) = a :: l.filter p by simp [hpa]]
        rw [dedupFirst_cons]
        rw [List.filter_comm, ih]
        simp [hpa]
      · rw [show ((a :: l).filter p) = l.filter p by simp [hpa]]
        have h1 : (l.filter (fun x => decide (x ≠ a))).filter p = l.filter p := by
          rw [List.filter_comm]
          apply List.filter_eq_self.mpr
          intro x hx
          have hpx : p x = true := (List.mem_filter.mp hx).2
          simp only [decide_eq_true_eq, ne_eq]
          intro hxa
          rw [hxa] at hpx
          simp [hpx] at hpa
        rw [show (List.filter p (a :: dedupFirst (l.filter fun x => decide (x ≠ a)))) =
          (dedupFirst (l.filter fun x => decide (x ≠ a))).filter p by simp [hpa]]
        rw [← ih, h1]

theorem dedupFirst_idem (l : List String) :
    dedupFirst (dedupFirst l) = dedupFirst l := by
  induction l using dedupFirst_rec with
  | h0 => simp [dedupFirst_nil]
  | h1 a l ih =>
      rw [dedupFirst_cons, dedupFirst_cons]
      congr 1
      have hself : (l.filter (fun x => decide (x ≠ a))).filter
          (fun x => decide (x ≠ a)) = l.filter (fun x => decide (x ≠ a)) := by
        apply List.filter_eq_self.mpr
        intro x hx
        exact (List.mem_filter.mp hx).2
      rw [← dedupFirst_filter, hself, ih]

theorem dedupFirst_append (l : List String) :
    ∀ c : List String, dedupFirst (l ++ c) =
      dedupFirst l ++ dedupFirst (c.filter (fun x => decide (x ∉ l))) := by
  induction l using dedupFirst_rec with
  | h0 =>
      intro c
      simp [dedupFirst_nil]
  | h1 a l ih =>
      intro c
      rw [List.cons_append, dedupFirst_cons, dedupFirst_cons]
      rw [List.filter_append, ih]
      have hpt : (c.filter (fun x => decide (x ≠ a))).filter
            (fun x => decide (x ∉ l.filter (fun y => decide (y ≠ a)))) =
          c.filter (fun x => decide (x ∉ a :: l)) := by
        rw [List.filter_filter]
        apply List.filter_congr
        intro x _
        by_cases hxa : x = a
        · simp [hxa]
        · by_cases hxl : x ∈ l <;> simp [hxa, hxl, List.mem_filter]
      rw [hpt, List.cons_append]

theorem dedupFirst_append_right_congr (l : List String) :
    ∀ b b' : List String, dedupFirst b = dedupFirst b' →
      dedupFirst (l ++ b) = dedupFirst (l ++ b') := by
  induction l using dedupFirst_rec with
  | h0 => intro b b' h; simpa using h
  | h1 a l ih =>
      intro b b' h
      rw [List.cons_append, List.cons_append, dedupFirst_cons, dedupFirst_cons,
        List.filter_append, List.filter_append]
      congr 1
      apply ih
      rw [dedupFirst_filter, dedupFirst_filter, h]

theorem dedupFirst_append_left_congr (b b' c : List String)
    (h : dedupFirst b = dedupFirst b') :
    dedupFirst (b ++ c) = dedupFirst (b' ++ c) := by
  rw [dedupFirst_append, dedupFirst_append, h]
  have hmem : ∀ x : String, x ∈ b ↔ x ∈ b' := by
    intro x
    rw [← mem_dedupFirst, h, mem_dedupFirst]
  have hfc : c.filter (fun x => decide (x ∉ b)) =
      c.filter (fun x => decide (x ∉ b')) := by
    apply List.filter_congr
    intro x _
    simp [hmem x]
  rw [hfc]

theorem dedupFirst_flatMap_congr (g g' : String → List String)
    (l : List String) (h : ∀ s ∈ l, dedupFirst (g s) = dedupFirst (g' s)) :
    dedupFirst (l.flatMap g) = dedupFirst (l.flatMap g') := by
  induction l with
  | nil => rfl
  | cons s l ih =>
      rw [List.flatMap_cons, List.flatMap_cons]
      calc dedupFirst (g s ++ l.flatMap g)
          = dedupFirst (g' s ++ l.flatMap g) :=
            dedupFirst_append_left_congr _ _ _ (h s (List.mem_cons_self s l))
        _ = dedupFirst (g' s ++ l.flatMap g') :=
            dedupFirst_append_right_congr _ _ _
              (ih (fun x hx => h x (List.mem_cons_of_mem s hx)))

theorem dedupFirst_flatMap_dedup (g : String → List String) (l : List String) :
    dedupFirst (l.flatMap (fun s => dedupFirst (g s))) =
      dedupFirst (l.flatMap g) :=
  dedupFirst_flatMap_congr _ _ l (fun s _ => dedupFirst_idem (g s))

theorem dedupFirst_eq_self_of_nodup (l : List String) :
    l.Nodup → dedupFirst l = l := by
  induction l using dedupFirst_rec with
  | h0 => intro _; rfl
  | h1 a l ih =>
      intro h
      rw [dedupFirst_cons]
      have hfl : l.filter (fun x => decide (x ≠ a)) = l := by
        apply List.filter_eq_self.mpr
        intro x hx
        simp only [decide_eq_true_eq, ne_eq]
        intro hxa
        rw [hxa] at hx
        exact (List.nodup_cons.mp h).1 hx
      have := ih (hfl ▸ (List.nodup_cons.mp h).2.filter (fun x => decide (x ≠ a)))
      rw [this, hfl]

/-- Characterization of `expand_dependencies`: it is exactly the
first-occurrence de-duplication of the pointwise leaf expansion of the
dependency list. -/
theorem expandDeps_char (sub : String → Option (List String)) :
    ∀ (fuel : Nat) (deps : List String),
      expandDeps sub fuel deps =
        dedupFirst (deps.flatMap (leafExpansion sub fuel)) := by
  intro fuel
  induction fuel with
  | zero =>
      intro deps
      rw [expandDeps]
      congr 1
      apply List.flatMap_congr
      intro d _
      rw [leafExpansion]
  | succ f ih =>
      intro deps
      rw [expandDeps]
      apply dedupFirst_flatMap_congr
      intro d _
      rw [leafExpansion]
      cases hsd : sub d with
      | none => simp
      | some l =>
          by_cases hl : l = []
          · simp [hl]
          · simp only [hl, ne_eq, not_false_iff, if_true]
            have hstep : ∀ s ∈ l, expandDeps sub f [s] =
                dedupFirst (leafExpansion sub f s) := by
              intro s _
              rw [ih]
              simp
            rw [List.flatMap_congr hstep]
            exact dedupFirst_flatMap_dedup _ l

/-- C8: `expand_dependencies` replaces each id bound to a nonempty subtask
list by the recursively flattened list of its leaf descendants, passes
every other id through unchanged, and de-duplicates preserving first-seen
order.  In particular a duplicate-free list in which no id has subtasks is
returned unchanged, and a dependency on parent `p` with subtasks `{a, b}`
where `b` has subtasks `{b1, b2}` expands to exactly `[a, b1, b2]`. -/
theorem expand_dependencies_spec :
    (∀ (sub : String → Option (List String)) (fuel : Nat) (deps : List String),
      expandDeps sub fuel deps =
        dedupFirst (deps.flatMap (leafExpansion sub fuel))) ∧
    (∀ (sub : String → Option (List String)) (fuel : Nat) (deps : List String),
      deps.Nodup → (∀ d ∈ deps, sub d = none ∨ sub d = some []) →
      expandDeps sub fuel deps = deps) ∧
    (∀ fuel : Nat, expandDeps c8Map (fuel + 2) ["p"] = ["a", "b1", "b2"]) := by
  refine ⟨expandDeps_char, ?_, ?_⟩
  · intro sub fuel deps hnd hleaf
    rw [expandDeps]
    have h1 : deps.flatMap (fun depId =>
        match sub depId with
        | some subtaskIds =>
            if subtaskIds ≠ [] then
              match fuel with
              | 0 => [depId]
              | fuel' + 1 =>
                  subtaskIds.flatMap (fun sid => expandDeps sub fuel' [sid])
            else [depId]
        | none => [depId]) = deps.flatMap (fun d => [d]) := by
      apply List.flatMap_congr
      intro d hd
      rcases hleaf d hd with h | h <;> simp [h]
    rw [h1, List.flatMap_singleton']
    exact dedupFirst_eq_self_of_nodup deps hnd
  · intro fuel
    have hleafOf : ∀ (f : Nat) (x : String), c8Map x = none →
        leafExpansion c8Map f x = [x] := by
      intro f x hx
      rw [leafExpansion, hx]
    have ha : c8Map "a" = none := by simp [c8Map]
    have hb1 : c8Map "b1" = none := by simp [c8Map]
    have hb2 : c8Map "b2" = none := by simp [c8Map]
    have hb : ∀ f : Nat, leafExpansion c8Map (f + 1) "b" = ["b1", "b2"] := by
      intro f
      rw [leafExpansion]
      simp [c8Map, hleafOf f _ hb1, hleafOf f _ hb2]
    have hp : leafExpansion c8Map (fuel + 2) "p" = ["a", "b1", "b2"] := by
      rw [leafExpansion]
      simp [c8Map]
      rw [hleafOf (fuel + 1) _ ha, hb fuel]
      rfl
    rw [expandDeps_char, List.flatMap_cons, List.flatMap_nil, List.append_nil, hp]
    decide

/-- Witness for C8's hypotheses at a concrete input: a duplicate-free leaf
dependency list passes through unchanged. -/
theorem expand_dependencies_spec_witness :
    (["x", "y"] : List String).Nodup ∧
    (∀ d ∈ (["x", "y"] : List String), c8LeafMap d = none ∨ c8LeafMap d = some []) ∧
    expandDeps c8LeafMap 3 ["x", "y"] = ["x", "y"] :=
  ⟨by decide, by intro d _; left; rfl,
    expand_dependencies_spec.2.1 c8LeafMap 3 ["x", "y"] (by decide)
      (by intro d _; left; rfl)⟩

/-- C3 counterexample: on a state whose grandparent task (id 1, subtask
`{2}`) appears after its sub-parent (id 2, subtask `{3}`) in the task list,
`update_parent_statuses` leaves the grandparent `in_progress` although its
only subtask ends `completed` — the claim's derivation property fails for
this state. -/
theorem update_parent_statuses_stale_parent :
    updateParentStatuses c3Tasks =
      [{ task_id := "3", status := "completed", subtasks := [] },
       { task_id := "2", status := "completed", subtasks := ["3"] },
       { task_id := "1", status := "in_progress", subtasks := ["2"] }] ∧
    subtaskStatuses (updateParentStatuses c3Tasks)
      { task_id := "1", status := "in_progress", subtasks := ["2"] } =
        ["completed"] ∧
    deriveParentStatus ["completed"] = "completed" ∧
    ("in_progress" : String) ≠ "completed" :=
  ⟨by decide, by decide, by decide, by decide⟩

/-! Invariants of the reverse-order pass of `update_parent_statuses`,
leading to C3's amended statement. -/

theorem updAt_length (ts : List PTask) (i : Nat) :
    (updAt ts i).length = ts.length := by
  unfold updAt
  cases h : ts[i]? with
  | none => rfl
  | some t =>
      by_cases h1 : t.subtasks = []
      · simp [h1]
      · by_cases h2 : subtaskStatuses ts t = [] <;> simp [h1, h2]

theorem updAt_getElem?_ne (ts : List PTask) (i j : Nat) (hij : i ≠ j) :
    (updAt ts i)[j]? = ts[j]? := by
  unfold updAt
  cases h : ts[i]? with
  | none => rfl
  | some t =>
      by_cases h1 : t.subtasks = []
      · simp [h1]
      · by_cases h2 : subtaskStatuses ts t = [] <;>
          simp [h1, h2, List.getElem?_set_ne hij]

theorem updAt_proj (ts : List PTask) (i j : Nat) :
    ((updAt ts i)[j]?).map taskProj = (ts[j]?).map taskProj := by
  by_cases hij : i = j
  · subst hij
    unfold updAt
    split
    · rfl
    · rename_i t ht
      split
      · rfl
      · split
        · rfl
        · have hlt : i < ts.length := by
            by_contra hge
            rw [List.getElem?_eq_none (by omega)] at ht
            cases ht
          rw [List.getElem?_set, if_pos rfl, if_pos hlt, ht]
          simp [taskProj]
  · rw [updAt_getElem?_ne ts i j hij]

theorem runDown_getElem?_ge :
    ∀ (k : Nat) (ts : List PTask) (j : Nat), k ≤ j →
      (runDown k ts)[j]? = ts[j]? := by
  intro k
  induction k with
  | zero => intro ts j _; rfl
  | succ i ih =>
      intro ts j hj
      rw [runDown, ih (updAt ts i) j (by omega)]
      exact updAt_getElem?_ne ts i j (by omega)

theorem runDown_proj :
    ∀ (k : Nat) (ts : List PTask) (j : Nat),
      ((runDown k ts)[j]?).map taskProj = (ts[j]?).map taskProj := by
  intro k
  induction k with
  | zero => intro ts j; rfl
  | succ i ih =>
      intro ts j
      rw [runDown, ih (updAt ts i) j]
      exact updAt_proj ts i j

theorem proj_pointwise_map_id (s s' : List PTask)
    (hproj : ∀ n : Nat, (s'[n]?).map taskProj = (s[n]?).map taskProj) :
    s'.map (fun t => t.task_id) = s.map (fun t => t.task_id) := by
  apply List.ext_getElem?
  intro n
  rw [List.getElem?_map, List.getElem?_map]
  have h := hproj n
  cases h1 : s'[n]? with
  | none =>
      cases h2 : s[n]? with
      | none => rfl
      | some b => rw [h1, h2] at h; simp at h
  | some a =>
      cases h2 : s[n]? with
      | none => rw [h1, h2] at h; simp at h
      | some b =>
          rw [h1, h2] at h
          have hab : taskProj a = taskProj b := by simpa using h
          have hid : a.task_id = b.task_id := congrArg Prod.fst hab
          simp [hid]

theorem find?_by_id_unique (l : List PTask)
    (hnd : (l.map (fun t => t.task_id)).Nodup) (u : PTask) (hu : u ∈ l) :
    l.find? (fun x => x.task_id = u.task_id) = some u := by
  induction l with
  | nil => cases hu
  | cons a l ih =>
      by_cases ha : a.task_id = u.task_id
      · rcases List.mem_cons.mp hu with rfl | hmem
        · rw [List.find?_cons_of_pos _ (by simp)]
        · exfalso
          have hm : u.task_id ∈ l.map (fun t => t.task_id) :=
            List.mem_map_of_mem _ hmem
          rw [← ha] at hm
          exact (List.nodup_cons.mp hnd).1 hm
      · have hmem : u ∈ l := by
          rcases List.mem_cons.mp hu with rfl | hm
          · exact absurd rfl ha
          · exact hm
        rw [List.find?_cons_of_neg _ (by simpa using ha)]
        exact ih (List.nodup_cons.mp hnd).2 hmem

theorem lookupLastP_of_mem (ts : List PTask)
    (hnd : (ts.map (fun t => t.task_id)).Nodup) (u : PTask) (hu : u ∈ ts) :
    lookupLastP ts u.task_id = some u := by
  unfold lookupLastP
  apply find?_by_id_unique
  · rw [List.map_reverse]
    exact List.nodup_reverse.mpr hnd
  · exact List.mem_reverse.mpr hu

theorem lookupLastP_eq_none_iff (ts : List PTask) (tid : String) :
    lookupLastP ts tid = none ↔ tid ∉ ts.map (fun t => t.task_id) := by
  unfold lookupLastP
  rw [List.find?_eq_none]
  constructor
  · intro h hmem
    obtain ⟨u, hu, hid⟩ := List.mem_map.mp hmem
    have hne : ¬ u.task_id = tid := by simpa using h u (List.mem_reverse.mpr hu)
    exact hne hid
  · intro h u hu
    simp only [decide_eq_true_eq]
    intro hid
    apply h
    rw [← hid]
    exact List.mem_map_of_mem _ (List.mem_reverse.mp hu)

theorem lookupLastP_mem_and_id (ts : List PTask) (tid : String) (u : PTask)
    (h : lookupLastP ts tid = some u) : u ∈ ts ∧ u.task_id = tid := by
  unfold lookupLastP at h
  refine ⟨List.mem_reverse.mp (List.mem_of_find?_eq_some h), ?_⟩
  have := List.find?_some h
  simpa using this

theorem exists_index_of_mem (l : List PTask) (x : PTask) (h : x ∈ l) :
    ∃ n : Nat, l[n]? = some x := by
  obtain ⟨m, hm⟩ := List.get_of_mem h
  exact ⟨m, by simp [← hm]⟩

theorem runDown_length : ∀ (k : Nat) (ts : List PTask),
    (runDown k ts).length = ts.length := by
  intro k
  induction k with
  | zero => intro ts; rfl
  | succ i ih => intro ts; rw [runDown, ih, updAt_length]

theorem subtaskStatuses_nil_transfer (s s' : List PTask) (t : PTask)
    (hid : s'.map (fun t => t.task_id) = s.map (fun t => t.task_id)) :
    subtaskStatuses s' t = [] ↔ subtaskStatuses s t = [] := by
  unfold subtaskStatuses
  rw [List.filterMap_eq_nil_iff, List.filterMap_eq_nil_iff]
  apply forall_congr'
  intro sid
  apply imp_congr_right
  intro _
  rw [Option.map_eq_none', Option.map_eq_none',
    lookupLastP_eq_none_iff, lookupLastP_eq_none_iff, hid]

/-- The induction behind C3's amended statement: after processing indices
`k-1 … 0` of a task list in which parents precede their subtasks and ids
are unique, every processed parent carries the status derived from its
subtasks' (final) statuses. -/
theorem runDown_correct :
    ∀ (k : Nat) (ts : List PTask),
      (ts.map (fun t => t.task_id)).Nodup →
      (∀ (i j : Nat) (ti tj : PTask), ts[i]? = some ti → ts[j]? = some tj →
        tj.task_id ∈ ti.subtasks → i < j) →
      k ≤ ts.length →
      ∀ (j : Nat) (t : PTask), j < k → (runDown k ts)[j]? = some t →
        subtaskStatuses (runDown k ts) t ≠ [] →
        t.status = deriveParentStatus (subtaskStatuses (runDown k ts) t) := by
  intro k
  induction k with
  | zero => intro ts _ _ _ j t hj _ _; omega
  | succ i ih =>
      intro ts hnd horder hk j t hj hget hne
      rw [runDown] at hget hne ⊢
      have hproj1 : ∀ n : Nat,
          ((updAt ts i)[n]?).map taskProj = (ts[n]?).map taskProj :=
        updAt_proj ts i
      have hid1 : (updAt ts i).map (fun t => t.task_id) =
          ts.map (fun t => t.task_id) :=
        proj_pointwise_map_id ts (updAt ts i) hproj1
      have hnd1 : ((updAt ts i).map (fun t => t.task_id)).Nodup := by
        rw [hid1]; exact hnd
      have horder1 : ∀ (a b : Nat) (ta tb : PTask),
          (updAt ts i)[a]? = some ta → (updAt ts i)[b]? = some tb →
          tb.task_id ∈ ta.subtasks → a < b := by
        intro a b ta tb hta htb hmem
        have h1 := hproj1 a
        have h2 := hproj1 b
        rw [hta] at h1
        rw [htb] at h2
        cases hx : ts[a]? with
        | none => rw [hx] at h1; simp at h1
        | some ta0 =>
            cases hy : ts[b]? with
            | none => rw [hy] at h2; simp at h2
            | some tb0 =>
                rw [hx] at h1
                rw [hy] at h2
                have ha : taskProj ta = taskProj ta0 := by simpa using h1
                have hb : taskProj tb = taskProj tb0 := by simpa using h2
                apply horder a b ta0 tb0 hx hy
                have hsub : ta0.subtasks = ta.subtasks :=
                  (congrArg Prod.snd ha).symm
                have hidb : tb0.task_id = tb.task_id :=
                  (congrArg Prod.fst hb).symm
                rw [hsub, hidb]
                exact hmem
      have hlen1 : i ≤ (updAt ts i).length := by rw [updAt_length]; omega
      have hprojF : ∀ n : Nat,
          ((runDown i (updAt ts i))[n]?).map taskProj = (ts[n]?).map taskProj :=
        fun n => (runDown_proj i (updAt ts i) n).trans (updAt_proj ts i n)
      have hidF : (runDown i (updAt ts i)).map (fun t => t.task_id) =
          ts.map (fun t => t.task_id) :=
        proj_pointwise_map_id ts (runDown i (updAt ts i)) hprojF
      by_cases hji : j < i
      · exact ih (updAt ts i) hnd1 horder1 hlen1 j t hji hget hne
      · have hj_eq : j = i := by omega
        subst hj_eq
        rw [runDown_getElem?_ge j (updAt ts j) j (le_refl j)] at hget
        have hlt : j < ts.length := by omega
        have ht0 : ts[j]? = some ts[j] := List.getElem?_eq_getElem hlt
        by_cases hsubnil : ts[j].subtasks = []
        · have hts1 : updAt ts j = ts := by
            unfold updAt
            rw [ht0]
            simp [hsubnil]
          rw [hts1, ht0] at hget
          injection hget with hteq
          apply absurd _ hne
          rw [hts1]
          unfold subtaskStatuses
          rw [← hteq, hsubnil]
          rfl
        · by_cases hstnil : subtaskStatuses ts ts[j] = []
          · have hts1 : updAt ts j = ts := by
              unfold updAt
              rw [ht0]
              simp [hsubnil, hstnil]
            rw [hts1, ht0] at hget
            injection hget with hteq
            rw [hts1] at hne ⊢
            have hidF2 : (runDown j ts).map (fun t => t.task_id) =
                ts.map (fun t => t.task_id) :=
              proj_pointwise_map_id ts (runDown j ts) (runDown_proj j ts)
            rw [← hteq] at hne
            exact absurd
              ((subtaskStatuses_nil_transfer ts (runDown j ts)
                ts[j] hidF2).mpr hstnil) hne
          · have hset : updAt ts j = ts.set j
                { ts[j] with
                  status := deriveParentStatus (subtaskStatuses ts ts[j]) } := by
              unfold updAt
              rw [ht0]
              simp [hsubnil, hstnil]
            rw [hset, List.getElem?_set, if_pos rfl, if_pos hlt] at hget
            injection hget with hteq
            have hkey : subtaskStatuses (runDown j (updAt ts j)) t =
                subtaskStatuses ts ts[j] := by
              unfold subtaskStatuses
              have hsubeq : t.subtasks = ts[j].subtasks := by
                rw [← hteq]
              rw [hsubeq]
              apply List.filterMap_congr
              intro sid hsid
              cases hlk : lookupLastP ts sid with
              | none =>
                  have hn2 : lookupLastP (runDown j (updAt ts j)) sid = none := by
                    rw [lookupLastP_eq_none_iff, hidF]
                    exact (lookupLastP_eq_none_iff ts sid).mp hlk
                  rw [hn2]
              | some u =>
                  obtain ⟨humem, huid⟩ := lookupLastP_mem_and_id ts sid u hlk
                  obtain ⟨jx, hjx⟩ := exists_index_of_mem ts u humem
                  have hij : j < jx :=
                    horder j jx ts[j] u ht0 hjx (by rw [huid]; exact hsid)
                  have hFjx : (runDown j (updAt ts j))[jx]? = some u := by
                    rw [runDown_getElem?_ge j _ jx (by omega),
                      updAt_getElem?_ne ts j jx (by omega)]
                    exact hjx
                  have hs2 : lookupLastP (runDown j (updAt ts j)) sid = some u := by
                    rw [← huid]
                    apply lookupLastP_of_mem
                    · rw [hidF]; exact hnd
                    · exact List.getElem?_mem hFjx
                  rw [hs2]
            rw [hkey, ← hteq]

/-- C3 amended: provided task ids are unique and every task with subtasks
appears in the list before each of its subtasks (the document order the
parser produces), after `update_parent_statuses` runs every task with at
least one subtask present in the state has status equal to the derivation
from its direct subtasks' statuses, regardless of its prior status.
(Without the ordering proviso the single reverse pass can leave a stale
parent, see the counterexample.) -/
theorem update_parent_statuses_derivation (tasks : List PTask)
    (hnd : (tasks.map (fun t => t.task_id)).Nodup)
    (horder : ∀ (i j : Nat) (ti tj : PTask), tasks[i]? = some ti →
      tasks[j]? = some tj → tj.task_id ∈ ti.subtasks → i < j) :
    ∀ (k : Nat) (t : PTask), (updateParentStatuses tasks)[k]? = some t →
      subtaskStatuses (updateParentStatuses tasks) t ≠ [] →
      t.status = deriveParentStatus (subtaskStatuses (updateParentStatuses tasks) t) := by
  intro k t hget hne
  have hklt : k < tasks.length := by
    by_contra hge
    rw [updateParentStatuses] at hget
    rw [List.getElem?_eq_none (by rw [runDown_length]; omega)] at hget
    cases hget
  exact runDown_correct tasks.length tasks hnd horder (le_refl _) k t hklt hget hne

/-- Witness for C3's amended theorem on a two-task parent/child list in
document order. -/
theorem update_parent_statuses_derivation_witness :
    (updateParentStatuses c3GoodTasks)[0]? =
      some { task_id := "1", status := "completed", subtasks := ["2"] } ∧
    subtaskStatuses (updateParentStatuses c3GoodTasks)
      { task_id := "1", status := "completed", subtasks := ["2"] } ≠ [] ∧
    ({ task_id := "1", status := "completed", subtasks := ["2"] } : PTask).status =
      deriveParentStatus (subtaskStatuses (updateParentStatuses c3GoodTasks)
        { task_id := "1", status := "completed", subtasks := ["2"] }) :=
  ⟨by decide, by decide,
    update_parent_statuses_derivation c3GoodTasks (by decide)
      (by
        intro i j ti tj hti htj hmem
        have hi : i < 2 := by
          by_contra hbig
          rw [List.getElem?_eq_none (by simp [c3GoodTasks]; omega)] at hti
          cases hti
        have hjb : j < 2 := by
          by_contra hbig
          rw [List.getElem?_eq_none (by simp [c3GoodTasks]; omega)] at htj
          cases htj
        interval_cases i <;> interval_cases j <;>
          simp [c3GoodTasks] at hti htj
        · subst hti; subst htj; exact absurd hmem (by decide)
        · decide
        · subst hti; subst htj; exact absurd hmem (by decide)
        · subst hti; subst htj; exact absurd hmem (by decide))
      0 _ (by decide) (by decide)⟩

/-! Lemmas for C2: safety of `partition_by_conflicts`. -/

theorem conflictRelated_symm (c : List FileConflict) (x y : String) :
    conflictRelated c x y = conflictRelated c y x := by
  unfold conflictRelated
  congr 1
  funext cf
  exact decide_eq_decide.mpr (by tauto)

theorem conflictRelated_append (c d : List FileConflict) (x y : String) :
    conflictRelated (c ++ d) x y = (conflictRelated c x y || conflictRelated d x y) := by
  unfold conflictRelated
  exact List.any_append

/-- Completeness of `detect_file_conflicts`: any two tasks at distinct
positions with a shared write file yield a conflict pair of their ids. -/
theorem detect_complete (l : List DTask) :
    ∀ (a b : DTask), List.Sublist [a, b] l →
      (∃ f, f ∈ a.writes ∧ f ∈ b.writes) →
      conflictRelated (detectFileConflicts l) a.task_id b.task_id = true := by
  induction l with
  | nil => intro a b hs _; cases hs
  | cons x rest ih =>
      intro a b hs hf
      rw [detectFileConflicts, conflictRelated_append]
      cases hs with
      | cons _ hs' =>
          rw [ih a b hs' hf]
          simp
      | cons₂ _ hs' =>
          have hb : b ∈ rest := List.singleton_sublist.mp hs'
          obtain ⟨f, hfa, hfb⟩ := hf
          have hne : x.writes.filter (fun g => b.writes.contains g) ≠ [] := by
            intro hnil
            have hfmem : f ∈ x.writes.filter (fun g => b.writes.contains g) :=
              List.mem_filter.mpr ⟨hfa, by simpa using hfb⟩
            rw [hnil] at hfmem
            cases hfmem
          have hcmem :
              ({ task_a := x.task_id, task_b := b.task_id,
                 files := x.writes.filter (fun g => b.writes.contains g) } :
                FileConflict) ∈
              rest.filterMap (fun y =>
                if x.writes.filter (fun g => y.writes.contains g) ≠ [] then
                  some { task_a := x.task_id, task_b := y.task_id,
                         files := x.writes.filter (fun g => y.writes.contains g) }
                else none) :=
            List.mem_filterMap.mpr ⟨b, hb, by rw [if_pos hne]⟩
          have hl : conflictRelated (rest.filterMap (fun y =>
              if x.writes.filter (fun g => y.writes.contains g) ≠ [] then
                some { task_a := x.task_id, task_b := y.task_id,
                       files := x.writes.filter (fun g => y.writes.contains g) }
              else none)) x.task_id b.task_id = true := by
            unfold conflictRelated
            exact List.any_eq_true.mpr ⟨_, hcmem, by simp⟩
          rw [hl]
          simp

theorem sublist_pair_of_mem (l : List DTask) :
    ∀ (a b : DTask), a ∈ l → b ∈ l → a ≠ b →
      List.Sublist [a, b] l ∨ List.Sublist [b, a] l := by
  induction l with
  | nil => intro a b ha _ _; cases ha
  | cons x rest ih =>
      intro a b ha hb hne
      rcases List.mem_cons.mp ha with rfl | ha'
      · have hb' : b ∈ rest := by
          rcases List.mem_cons.mp hb with h | h
          · exact absurd h.symm hne
          · exact h
        exact Or.inl ((List.singleton_sublist.mpr hb').cons₂ a)
      · rcases List.mem_cons.mp hb with rfl | hb'
        · exact Or.inr ((List.singleton_sublist.mpr ha').cons₂ b)
        · rcases ih a b ha' hb' hne with h | h
          · exact Or.inl (h.cons x)
          · exact Or.inr (h.cons x)

theorem placeTask_cases (conflicts : List FileConflict) (t : DTask) :
    ∀ (batches : List (List DTask)) (b : List DTask),
      b ∈ placeTask conflicts t batches →
      b ∈ batches ∨
      (∃ b0 ∈ batches, b = b0 ++ [t] ∧
        b0.all (fun m => ! conflictRelated conflicts t.task_id m.task_id) = true) ∨
      b = [t] := by
  intro batches
  induction batches with
  | nil =>
      intro b hb
      rw [placeTask] at hb
      right; right
      simpa using hb
  | cons batch rest ih =>
      intro b hb
      rw [placeTask] at hb
      by_cases hc : batch.all
          (fun m => ! conflictRelated conflicts t.task_id m.task_id) = true
      · rw [if_pos hc] at hb
        rcases List.mem_cons.mp hb with rfl | hb'
        · exact Or.inr (Or.inl ⟨batch, List.mem_cons_self _ _, rfl, hc⟩)
        · exact Or.inl (List.mem_cons_of_mem _ hb')
      · rw [if_neg hc] at hb
        rcases List.mem_cons.mp hb with rfl | hb'
        · exact Or.inl (List.mem_cons_self _ _)
        · rcases ih b hb' with h | ⟨b0, hb0, heq, hall⟩ | h
          · exact Or.inl (List.mem_cons_of_mem _ h)
          · exact Or.inr (Or.inl ⟨b0, List.mem_cons_of_mem _ hb0, heq, hall⟩)
          · exact Or.inr (Or.inr h)

/-- The greedy coloring only produces batches of pairwise write-disjoint
tasks drawn from the write-task pool. -/
theorem greedyAssign_inv (wts : List DTask) :
    ∀ (rest : List DTask) (assigned : List String)
      (batches : List (List DTask)),
      (∀ u ∈ rest, u ∈ wts) →
      (∀ b ∈ batches, ∀ m ∈ b, m ∈ wts ∧ m.task_id ∈ assigned) →
      (∀ b ∈ batches, b.Pairwise DisjW) →
      ∀ b ∈ greedyAssign (detectFileConflicts wts) rest assigned batches,
        (∀ m ∈ b, m ∈ wts) ∧ b.Pairwise DisjW := by
  intro rest
  induction rest with
  | nil =>
      intro assigned batches _ hmem hpw b hb
      rw [greedyAssign] at hb
      exact ⟨fun m hm => (hmem b hb m hm).1, hpw b hb⟩
  | cons t rest ih =>
      intro assigned batches hsub hmem hpw b hb
      rw [greedyAssign] at hb
      by_cases hassn : assigned.contains t.task_id = true
      · rw [if_pos hassn] at hb
        exact ih assigned batches
          (fun u hu => hsub u (List.mem_cons_of_mem _ hu)) hmem hpw b hb
      · rw [if_neg hassn] at hb
        have ht : t ∈ wts := hsub t (List.mem_cons_self _ _)
        refine ih (assigned ++ [t.task_id])
          (placeTask (detectFileConflicts wts) t batches)
          (fun u hu => hsub u (List.mem_cons_of_mem _ hu)) ?_ ?_ b hb
        · intro b' hb' m hm
          rcases placeTask_cases _ t batches b' hb' with h | ⟨b0, hb0, rfl, _⟩ | rfl
          · have h2 := hmem b' h m hm
            exact ⟨h2.1, List.mem_append_left _ h2.2⟩
          · rcases List.mem_append.mp hm with hm0 | hmt
            · have h2 := hmem b0 hb0 m hm0
              exact ⟨h2.1, List.mem_append_left _ h2.2⟩
            · have hmeq : m = t := by simpa using hmt
              subst hmeq
              exact ⟨ht, List.mem_append_right _ (by simp)⟩
          · have hmeq : m = t := by simpa using hm
            subst hmeq
            exact ⟨ht, List.mem_append_right _ (by simp)⟩
        · intro b' hb'
          rcases placeTask_cases _ t batches b' hb' with h | ⟨b0, hb0, rfl, hall⟩ | rfl
          · exact hpw b' h
          · rw [List.pairwise_append]
            refine ⟨hpw b0 hb0, List.pairwise_singleton .., ?_⟩
            intro m hm u hu
            have hueq : u = t := by simpa using hu
            subst hueq
            have hmw : m ∈ wts := (hmem b0 hb0 m hm).1
            have hma : m.task_id ∈ assigned := (hmem b0 hb0 m hm).2
            have hidne : u.task_id ≠ m.task_id := by
              intro he
              exact hassn (by rw [he]; simpa using hma)
            have hvne : m ≠ u := fun he => hidne (by rw [he])
            intro f hfm hfu
            have hrel : conflictRelated (detectFileConflicts wts)
                u.task_id m.task_id = true := by
              rcases sublist_pair_of_mem wts u m ht hmw
                  (fun he => hvne he.symm) with hs | hs
              · exact detect_complete wts u m hs ⟨f, hfu, hfm⟩
              · rw [conflictRelated_symm]
                exact detect_complete wts m u hs ⟨f, hfm, hfu⟩
            have hnot := List.all_eq_true.mp hall m hm
            rw [hrel] at hnot
            cases hnot
          · exact List.pairwise_singleton ..

/-- Every batch the safe portion produces consists of safe tasks and is
pairwise write-disjoint. -/
theorem mainBatches_inv (tasks : List DTask) :
    ∀ b ∈ mainBatchesOf tasks,
      (∀ m ∈ b, m ∈ safeTasks tasks) ∧ b.Pairwise DisjW := by
  intro b hb
  unfold mainBatchesOf at hb
  by_cases hse : (safeTasks tasks).isEmpty = true
  · rw [if_pos hse] at hb
    cases hb
  · rw [if_neg hse] at hb
    have hwb := greedyAssign_inv (writeTasksOf tasks) (writeTasksOf tasks) [] []
      (fun u hu => hu) (by intro b hb; cases hb) (by intro b hb; cases hb)
    have hwsub : ∀ m ∈ writeTasksOf tasks, m ∈ safeTasks tasks :=
      fun m hm => List.filter_subset' _ hm
    have hrosub : ∀ m ∈ readOnlyTasksOf tasks, m ∈ safeTasks tasks :=
      fun m hm => List.filter_subset' _ hm
    have hronil : ∀ m ∈ readOnlyTasksOf tasks, m.writes = [] := by
      intro m hm
      have := (List.mem_filter.mp hm).2
      exact List.isEmpty_iff.mp this
    by_cases hro : (readOnlyTasksOf tasks).isEmpty = true
    · rw [if_pos hro] at hb
      obtain ⟨h1, h2⟩ := hwb b hb
      exact ⟨fun m hm => hwsub m (h1 m hm), h2⟩
    · rw [if_neg hro] at hb
      cases hwbv : greedyAssign (detectFileConflicts (writeTasksOf tasks))
          (writeTasksOf tasks) [] [] with
      | nil =>
          rw [hwbv] at hb
          have hbeq : b = readOnlyTasksOf tasks := by simpa using hb
          subst hbeq
          refine ⟨hrosub, ?_⟩
          apply List.pairwise_of_forall_mem_list
          intro x hx y hy f hf hfy
          rw [hronil y hy] at hfy
          cases hfy
      | cons b0 wrest =>
          rw [hwbv] at hb
          rcases List.mem_cons.mp hb with rfl | hb'
          · have hb0 := hwb b0 (by rw [hwbv]; exact List.mem_cons_self _ _)
            constructor
            · intro m hm
              rcases List.mem_append.mp hm with h | h
              · exact hwsub m (hb0.1 m h)
              · exact hrosub m h
            · rw [List.pairwise_append]
              refine ⟨hb0.2, ?_, ?_⟩
              · apply List.pairwise_of_forall_mem_list
                intro x hx y hy f hf hfy
                rw [hronil y hy] at hfy
                cases hfy
              · intro x hx y hy f hf hfy
                rw [hronil y hy] at hfy
                cases hfy
          · have h2 := hwb b (by rw [hwbv]; exact List.mem_cons_of_mem _ hb')
            exact ⟨fun m hm => hwsub m (h2.1 m hm), h2.2⟩

/-- C2: the partition returned by `partition_by_conflicts` is safe — no two
tasks in the same batch have intersecting `writes` lists, every batch
member declaring neither writes nor reads is the sole member of its batch,
and every task declaring neither writes nor reads gets a singleton batch of
its own. -/
theorem partition_by_conflicts_safe (tasks : List DTask) :
    (∀ b ∈ partitionByConflicts tasks, b.Pairwise DisjW) ∧
    (∀ b ∈ partitionByConflicts tasks, ∀ t ∈ b,
      t.writes = [] → t.reads = [] → b = [t]) ∧
    (∀ t ∈ tasks, t.writes = [] → t.reads = [] →
      [t] ∈ partitionByConflicts tasks) := by
  refine ⟨?_, ?_, ?_⟩
  · intro b hb
    rcases List.mem_append.mp hb with h | h
    · exact (mainBatches_inv tasks b h).2
    · obtain ⟨u, _, rfl⟩ := List.mem_map.mp h
      exact List.pairwise_singleton ..
  · intro b hb t ht hw hr
    rcases List.mem_append.mp hb with h | h
    · exfalso
      have hsafe := (mainBatches_inv tasks b h).1 t ht
      have := (List.mem_filter.mp hsafe).2
      rw [hw, hr] at this
      simp at this
    · obtain ⟨u, _, rfl⟩ := List.mem_map.mp h
      have : t = u := by simpa using ht
      rw [this]
  · intro t ht hw hr
    apply List.mem_append_right
    apply List.mem_map_of_mem
    apply List.mem_filter.mpr
    exact ⟨ht, by rw [hw, hr]; rfl⟩

/-- Witness for C2 on the spec's three-task example (A writes x, B writes
x and y, C writes z): A and C share a batch, B is separated. -/
theorem partition_by_conflicts_safe_witness :
    ([{ task_id := "A", writes := ["x"], reads := [] },
      { task_id := "C", writes := ["z"], reads := [] }] ∈
        partitionByConflicts c2Tasks) ∧
    List.Pairwise DisjW
      [{ task_id := "A", writes := ["x"], reads := [] },
       { task_id := "C", writes := ["z"], reads := [] }] :=
  ⟨by decide,
    (partition_by_conflicts_safe c2Tasks).1 _ (by decide)⟩

/-! Helper lemmas for C5's amended grammar theorem. -/

theorem dropWhile_eq_self_of_head (p : Char → Bool) (l : List Char)
    (h : ∀ hd, l.head? = some hd → p hd = false) : l.dropWhile p = l := by
  cases l with
  | nil => rfl
  | cons a r => rw [List.dropWhile_cons, h a rfl]; simp

theorem dropWhile_append_all (p : Char → Bool) (ws r : List Char)
    (h : ∀ w ∈ ws, p w = true) : (ws ++ r).dropWhile p = r.dropWhile p := by
  induction ws with
  | nil => rfl
  | cons w ws ih =>
      rw [List.cons_append, List.dropWhile_cons, h w (List.mem_cons_self _ _)]
      simp only [if_true]
      exact ih (fun x hx => h x (List.mem_cons_of_mem _ hx))

theorem dropWhile_skip (p : Char → Bool) (ws r : List Char)
    (h : ∀ w ∈ ws, p w = true)
    (hr : ∀ hd, r.head? = some hd → p hd = false) :
    (ws ++ r).dropWhile p = r := by
  rw [dropWhile_append_all p ws r h]
  exact dropWhile_eq_self_of_head p r hr

theorem takeWhile_all_append (p : Char → Bool) (a r : List Char)
    (ha : ∀ x ∈ a, p x = true)
    (hr : ∀ hd, r.head? = some hd → p hd = false) :
    (a ++ r).takeWhile p = a := by
  induction a with
  | nil =>
      cases r with
      | nil => rfl
      | cons x t => simp [List.takeWhile_cons, hr x rfl]
  | cons x a ih =>
      rw [List.cons_append, List.takeWhile_cons, ha x (List.mem_cons_self _ _)]
      simp only [if_true, List.cons.injEq, true_and]
      exact ih (fun y hy => ha y (List.mem_cons_of_mem _ hy))

theorem pyStrip_eq_self (l : List Char)
    (hh : ∀ hd, l.head? = some hd → pyIsSpace hd = false)
    (hl : ∀ lc, l.getLast? = some lc → pyIsSpace lc = false) :
    pyStrip l = l := by
  unfold pyStrip
  rw [dropWhile_eq_self_of_head _ _ hh]
  rw [dropWhile_eq_self_of_head _ _ (fun hd hhd => hl hd (by
    rw [List.head?_reverse] at hhd
    exact hhd)), List.reverse_reverse]

theorem space_cases (c : Char) (h : pyIsSpace c = true) :
    c = ' ' ∨ c = '\t' ∨ c = '\n' ∨ c = '\r' ∨ c = Char.ofNat 11 ∨
      c = Char.ofNat 12 := by
  simp only [pyIsSpace, Bool.or_eq_true, decide_eq_true_eq] at h
  tauto

theorem space_not_digit (c : Char) (h : pyIsSpace c = true) :
    isDigitC c = false := by
  rcases space_cases c h with rfl | rfl | rfl | rfl | rfl | rfl <;> decide

theorem digit_not_space (c : Char) (h : isDigitC c = true) :
    pyIsSpace c = false := by
  by_contra hs
  rw [Bool.not_eq_false] at hs
  rcases space_cases c hs with rfl | rfl | rfl | rfl | rfl | rfl <;>
    exact absurd h (by decide)

theorem digit_ne_star (c : Char) (h : isDigitC c = true) : c ≠ '*' := by
  intro he
  subst he
  exact absurd h (by decide)

theorem space_ne_star (c : Char) (h : pyIsSpace c = true) : c ≠ '*' := by
  rcases space_cases c h with rfl | rfl | rfl | rfl | rfl | rfl <;> decide

theorem space_ne_dot (c : Char) (h : pyIsSpace c = true) : c ≠ '.' := by
  rcases space_cases c h with rfl | rfl | rfl | rfl | rfl | rfl <;> decide

theorem scanStar_no_star (l : List Char)
    (h : ∀ hd, l.head? = some hd → hd ≠ '*') : scanStar l = (false, l) := by
  cases l with
  | nil => rfl
  | cons a r =>
      rw [scanStar, if_neg (h a rfl)]

theorem scanDot_no_dot (l : List Char)
    (h : ∀ hd, l.head? = some hd → hd ≠ '.') : scanDot l = l := by
  cases l with
  | nil => rfl
  | cons a r =>
      rw [scanDot, if_neg (h a rfl)]

theorem idLoop_base (fuel : Nat) (rest : List Char)
    (hstop : ∀ c2 r2, rest = '.' :: c2 :: r2 → isDigitC c2 = false) :
    idLoop fuel rest = ([], rest) := by
  cases fuel with
  | zero =>
      cases rest with
      | nil => rfl
      | cons a t => cases t with
        | nil => rfl
        | cons c2 r2 => rfl
  | succ f =>
      cases rest with
      | nil => rfl
      | cons a t =>
          cases t with
          | nil => rfl
          | cons c2 r2 =>
              rw [idLoop]
              by_cases ha : a = '.'
              · subst ha
                rw [if_neg (by simp [hstop c2 r2 rfl])]
              · rw [if_neg (by simp [ha])]

theorem length_le_flat (groups : List (List Char)) :
    groups.length ≤ (groups.flatMap (fun g => '.' :: g)).length := by
  induction groups with
  | nil => simp
  | cons g gs ih =>
      simp only [List.flatMap_cons, List.length_cons, List.length_append,
        List.length_cons]
      omega

theorem idLoop_groups (groups : List (List Char)) :
    ∀ (fuel : Nat) (rest : List Char),
      groups.length ≤ fuel →
      (∀ g ∈ groups, g ≠ [] ∧ ∀ d ∈ g, isDigitC d = true) →
      (∀ hd, rest.head? = some hd → isDigitC hd = false) →
      (∀ c2 r2, rest = '.' :: c2 :: r2 → isDigitC c2 = false) →
      idLoop fuel (groups.flatMap (fun g => '.' :: g) ++ rest) =
        (groups.flatMap (fun g => '.' :: g), rest) := by
  induction groups with
  | nil =>
      intro fuel rest _ _ _ hstop
      simpa using idLoop_base fuel rest hstop
  | cons g gs ih =>
      intro fuel rest hlen hg hhd hstop
      cases g with
      | nil => exact absurd rfl (hg [] (List.mem_cons_self _ _)).1
      | cons d g' =>
          cases fuel with
          | zero => simp at hlen
          | succ f =>
              have hd : isDigitC d = true :=
                (hg _ (List.mem_cons_self _ _)).2 d (List.mem_cons_self _ _)
              have hflat : ((d :: g') :: gs).flatMap (fun g => '.' :: g) ++ rest =
                  '.' :: d :: (g' ++ (gs.flatMap (fun g => '.' :: g) ++ rest)) := by
                simp
              rw [hflat, idLoop, if_pos (by simp [hd])]
              have hXhd : ∀ hd2, (gs.flatMap (fun g => '.' :: g) ++
                  rest).head? = some hd2 → isDigitC hd2 = false := by
                cases gs with
                | nil =>
                    intro hd2 hh2
                    simp only [List.flatMap_nil, List.nil_append] at hh2
                    exact hhd hd2 hh2
                | cons g2 gs2 =>
                    intro hd2 hh2
                    simp only [List.flatMap_cons, List.cons_append,
                      List.head?_cons, Option.some.injEq] at hh2
                    rw [← hh2]
                    decide
              have hdall : ∀ x ∈ d :: g', isDigitC x = true :=
                (hg _ (List.mem_cons_self _ _)).2
              have htake : (d :: (g' ++ (gs.flatMap (fun g => '.' :: g) ++
                  rest))).takeWhile isDigitC = d :: g' :=
                takeWhile_all_append _ (d :: g') _ hdall hXhd
              have hdrop : (d :: (g' ++ (gs.flatMap (fun g => '.' :: g) ++
                  rest))).dropWhile isDigitC =
                  gs.flatMap (fun g => '.' :: g) ++ rest :=
                dropWhile_skip _ (d :: g') _ hdall hXhd
              have hrec : ∀ fl : Nat, gs.length ≤ fl →
                  idLoop fl (gs.flatMap (fun g => '.' :: g) ++ rest) =
                    (gs.flatMap (fun g => '.' :: g), rest) :=
                fun fl hfl => ih fl rest hfl
                  (fun g hg2 => hg g (List.mem_cons_of_mem _ hg2)) hhd hstop
              simp only [htake, hdrop]
              rw [hrec f (by simp at hlen; omega)]
              simp

theorem head?_append_left (l r : List Char) (h : l ≠ []) :
    (l ++ r).head? = l.head? := by
  cases l with
  | nil => exact absurd rfl h
  | cons a t => rfl

/-- C5 amended: in `_parse_task_line` the leading `-`/`*` list marker is
mandatory, not optional.  Every line assembled from a marker, a checkbox,
an optional trailing `*`, a dotted numeric id of arbitrary depth, an
optional trailing dot, and a description is parsed into the corresponding
task tuple; a line whose first non-blank character is anything else — in
particular a line starting directly with the checkbox — yields no task. -/
theorem parse_task_line_grammar :
    (∀ (m c : Char) (ws1 ws2 ws3 : List Char) (star dot : Bool)
        (first : List Char) (groups : List (List Char)) (desc : List Char),
      (m = '-' ∨ m = '*') →
      (∀ w ∈ ws1, pyIsSpace w = true) →
      isBoxChar c = true →
      (∀ w ∈ ws2, pyIsSpace w = true) →
      first ≠ [] →
      (∀ d ∈ first, isDigitC d = true) →
      (∀ g ∈ groups, g ≠ [] ∧ ∀ d ∈ g, isDigitC d = true) →
      ws3 ≠ [] →
      (∀ w ∈ ws3, pyIsSpace w = true) →
      desc ≠ [] →
      (∀ hd, desc.head? = some hd → pyIsSpace hd = false) →
      (∀ lc, desc.getLast? = some lc → pyIsSpace lc = false) →
      desc.contains '\n' = false →
      parseTaskLine (buildTaskLine m ws1 c star ws2 first groups dot ws3 desc) =
        some (⟨idString first groups⟩, pyStatusOf c, star, ⟨desc⟩)) ∧
    (∀ (line : List Char) (hd : Char), (pyStrip line).head? = some hd →
      hd ≠ '-' → hd ≠ '*' → parseTaskLine line = none) := by
  constructor
  · intro m c ws1 ws2 ws3 star dot first groups desc hm hws1 hbox hws2
      hf1 hfd hg hws3ne hws3 hdne hdh hdl hdnl
    obtain ⟨d0, first', rfl⟩ : ∃ d0 first', first = d0 :: first' := by
      cases first with
      | nil => exact absurd rfl hf1
      | cons d0 f' => exact ⟨d0, f', rfl⟩
    obtain ⟨w3, ws3', rfl⟩ : ∃ w3 ws3', ws3 = w3 :: ws3' := by
      cases ws3 with
      | nil => exact absurd rfl hws3ne
      | cons w3 t => exact ⟨w3, t, rfl⟩
    have hstrip : pyStrip (buildTaskLine m ws1 c star ws2 (d0 :: first')
        groups dot (w3 :: ws3') desc) = buildTaskLine m ws1 c star ws2
        (d0 :: first') groups dot (w3 :: ws3') desc := by
      apply pyStrip_eq_self
      · intro hd hhd
        simp only [buildTaskLine, List.head?_cons, Option.some.injEq] at hhd
        rw [← hhd]
        rcases hm with rfl | rfl <;> decide
      · intro lc hlc
        rw [← List.head?_reverse] at hlc
        simp only [buildTaskLine, idString, List.reverse_cons,
          List.reverse_append] at hlc
        repeat rw [head?_append_left _ _ (by simp [hdne])] at hlc
        rw [List.head?_reverse] at hlc
        exact hdl lc hlc
    have hmark : scanMarker (buildTaskLine m ws1 c star ws2 (d0 :: first')
        groups dot (w3 :: ws3') desc) =
        some (ws1 ++ '[' :: c :: ']' :: ((if star then ['*'] else []) ++
          (ws2 ++ (idString (d0 :: first') groups ++
            ((if dot then ['.'] else []) ++ ((w3 :: ws3') ++ desc)))))) := by
      rw [buildTaskLine, scanMarker]
      rw [if_pos (by rcases hm with rfl | rfl <;> decide)]
    have hcheck : scanCheckbox (ws1 ++ '[' :: c :: ']' ::
        ((if star then ['*'] else []) ++ (ws2 ++ (idString (d0 :: first')
          groups ++ ((if dot then ['.'] else []) ++
            ((w3 :: ws3') ++ desc)))))) =
        some (c, (if star then ['*'] else []) ++ (ws2 ++
          (idString (d0 :: first') groups ++ ((if dot then ['.'] else []) ++
            ((w3 :: ws3') ++ desc))))) := by
      rw [scanCheckbox]
      rw [dropWhile_skip _ _ _ hws1 (by intro hd hhd; cases hhd; decide)]
      exact if_pos hbox
    have hstar : scanStar ((if star then ['*'] else []) ++ (ws2 ++
        (idString (d0 :: first') groups ++ ((if dot then ['.'] else []) ++
          ((w3 :: ws3') ++ desc))))) =
        (star, ws2 ++ (idString (d0 :: first') groups ++
          ((if dot then ['.'] else []) ++ ((w3 :: ws3') ++ desc)))) := by
      cases star with
      | true => rw [if_pos rfl, List.cons_append, List.nil_append, scanStar,
          if_pos rfl]
      | false =>
          rw [if_neg (by simp), List.nil_append]
          apply scanStar_no_star
          intro hd hhd
          cases ws2 with
          | nil =>
              simp only [List.nil_append, idString, List.cons_append,
                List.head?_cons, Option.some.injEq] at hhd
              rw [← hhd]
              exact digit_ne_star d0 (hfd d0 (List.mem_cons_self _ _))
          | cons w ws2' =>
              simp only [List.cons_append, List.head?_cons,
                Option.some.injEq] at hhd
              rw [← hhd]
              exact space_ne_star w (hws2 w (List.mem_cons_self _ _))
    have hXhd : ∀ hd, ((groups.flatMap (fun g => '.' :: g)) ++
        ((if dot then ['.'] else []) ++ ((w3 :: ws3') ++ desc))).head? =
          some hd → isDigitC hd = false := by
      intro hd hhd
      cases groups with
      | nil =>
          simp only [List.flatMap_nil, List.nil_append] at hhd
          cases dot with
          | true =>
              simp at hhd
              subst hhd
              decide
          | false =>
              simp at hhd
              subst hhd
              exact space_not_digit w3 (hws3 w3 (List.mem_cons_self _ _))
      | cons g2 gs2 =>
          cases hg2 : g2 with
          | nil => exact absurd hg2 (hg g2 (List.mem_cons_self _ _)).1
          | cons e g2' =>
              rw [hg2] at hhd
              simp only [List.flatMap_cons, List.cons_append,
                List.head?_cons, Option.some.injEq] at hhd
              rw [← hhd]
              decide
    have hid : scanId (ws2 ++ (idString (d0 :: first') groups ++
        ((if dot then ['.'] else []) ++ ((w3 :: ws3') ++ desc)))) =
        some (idString (d0 :: first') groups,
          (if dot then ['.'] else []) ++ ((w3 :: ws3') ++ desc)) := by
      rw [scanId]
      rw [dropWhile_skip _ _ _ hws2 (by
        intro hd hhd
        simp only [idString, List.cons_append, List.head?_cons,
          Option.some.injEq] at hhd
        rw [← hhd]
        exact digit_not_space d0 (hfd d0 (List.mem_cons_self _ _)))]
      simp only [idString, List.append_assoc, List.cons_append]
      rw [show d0 :: (first' ++ (groups.flatMap (fun g => '.' :: g) ++
        ((if dot then ['.'] else []) ++ (w3 :: (ws3' ++ desc))))) =
        (d0 :: first') ++ (groups.flatMap (fun g => '.' :: g) ++
        ((if dot then ['.'] else []) ++ (w3 :: (ws3' ++ desc)))) from rfl]
      rw [takeWhile_all_append _ _ _ hfd (by
        intro hd hhd
        apply hXhd hd
        simpa [List.append_assoc] using hhd)]
      rw [dropWhile_skip _ _ _ hfd (by
        intro hd hhd
        apply hXhd hd
        simpa [List.append_assoc] using hhd)]
      have hrest1 : ∀ hd, ((if dot then ['.'] else []) ++
          ((w3 :: ws3') ++ desc)).head? = some hd → isDigitC hd = false := by
        intro hd hhd
        cases dot with
        | true =>
            simp at hhd
            subst hhd
            decide
        | false =>
            simp at hhd
            subst hhd
            exact space_not_digit w3 (hws3 w3 (List.mem_cons_self _ _))
      have hrest2 : ∀ c2 r2, (if dot then ['.'] else []) ++
          ((w3 :: ws3') ++ desc) = '.' :: c2 :: r2 → isDigitC c2 = false := by
        intro c2 r2 heq
        cases dot with
        | true =>
            simp at heq
            obtain ⟨heq1, -⟩ := heq
            subst heq1
            exact space_not_digit w3 (hws3 w3 (List.mem_cons_self _ _))
        | false =>
            simp at heq
            exact absurd heq.1 (space_ne_dot w3 (hws3 w3 (List.mem_cons_self _ _)))
      have hloop := idLoop_groups groups
        ((groups.flatMap (fun g => '.' :: g) ++
          ((if dot then ['.'] else []) ++ ((w3 :: ws3') ++ desc))).length)
        ((if dot then ['.'] else []) ++ ((w3 :: ws3') ++ desc))
        (by
          have h1 := length_le_flat groups
          rw [List.length_append]
          omega)
        hg hrest1 hrest2
      simp only [List.append_assoc, List.cons_append] at hloop
      rw [hloop]
      simp
    have hdot : scanDot ((if dot then ['.'] else []) ++
        ((w3 :: ws3') ++ desc)) = (w3 :: ws3') ++ desc := by
      cases dot with
      | true => rw [if_pos rfl, List.cons_append, List.nil_append, scanDot,
          if_pos rfl]
      | false =>
          rw [if_neg (by simp), List.nil_append]
          apply scanDot_no_dot
          intro hd hhd
          simp only [List.cons_append, List.head?_cons,
            Option.some.injEq] at hhd
          rw [← hhd]
          exact space_ne_dot w3 (hws3 w3 (List.mem_cons_self _ _))
    have hdesc : scanDescTail ((w3 :: ws3') ++ desc) = some desc := by
      rw [List.cons_append, scanDescTail]
      rw [if_pos (hws3 w3 (List.mem_cons_self _ _))]
      rw [show w3 :: (ws3' ++ desc) = (w3 :: ws3') ++ desc from rfl]
      rw [dropWhile_skip _ _ _ hws3 hdh]
      rw [if_pos ⟨hdne, hdnl⟩]
    simp only [parseTaskLine, hstrip, hmark, hcheck, hstar, hid, hdot, hdesc]
    rw [pyStrip_eq_self desc hdh hdl]
  · intro line hd hhd hd1 hd2
    rw [parseTaskLine]
    cases hps : pyStrip line with
    | nil => rw [hps] at hhd; cases hhd
    | cons a t =>
        rw [hps] at hhd
        simp only [List.head?_cons, Option.some.injEq] at hhd
        subst hhd
        rw [scanMarker, if_neg (by simp [hd1, hd2])]

/-- Witness for C5's amended theorem: the line `- [x] 1.2 Do it` parses to
the expected task tuple. -/
theorem parse_task_line_grammar_witness :
    (('-' : Char) = '-' ∨ ('-' : Char) = '*') ∧
    isBoxChar 'x' = true ∧
    parseTaskLine (buildTaskLine '-' [' '] 'x' false [' '] ['1'] [['2']]
      false [' '] ("Do it".toList)) =
      some (⟨idString ['1'] [['2']]⟩, pyStatusOf 'x', false, ⟨"Do it".toList⟩) :=
  ⟨Or.inl rfl, by decide,
    parse_task_line_grammar.1 '-' 'x' [' '] [' '] [' '] false false
      ['1'] [['2']] ("Do it".toList) (Or.inl rfl) (by decide) (by decide)
      (by decide) (by decide) (by decide) (by decide) (by decide) (by decide)
      (by decide) (by decide) (by decide) (by decide)⟩

/-- C10: on a valid task line followed by a gate-matching line whose id
fails to parse (recorded as an error) and another valid task line,
`parse_tasks` appends the first task a second time, so the returned task
ids are not unique. -/
theorem parse_tasks_duplicate_after_error :
    parseTasks c10Content =
      { success := false,
        tasks := [c10Task1, c10Task1, c10Task2],
        errors := [{ file := "tasks.md", line := 2,
                     message := "Invalid task format: - [ ] abc Bad line" }] } ∧
    ¬ ((parseTasks c10Content).tasks.map (fun t => t.task_id)).Nodup := by
  exact ⟨by decide, by decide⟩

/-- C5 counterexample: a line starting directly with the checkbox (no
`-`/`*` list marker) is rejected by `_parse_task_line`, and `parse_tasks`
on that single line yields no task at all — the leading marker is
mandatory, not optional. -/
theorem parse_task_line_marker_mandatory :
    parseTaskLine ("[ ] 1 Do something".toList) = none ∧
    matchesGate (pyStrip ("[ ] 1 Do something".toList)) = false ∧
    (parseTasks "[ ] 1 Do something").tasks = [] ∧
    parseTaskLine ("- [ ] 1 Do something".toList) =
      some ("1", MTaskStatus.not_started, false, "Do something") := by
  exact ⟨by decide, by decide, by decide, by decide⟩

/-! Auxiliary lemmas: none of the state updates reached from
`consolidate_single_task` after the report is appended touches
`final_reports`. -/

theorem blockDependentTasks_final_reports (now : String) (e b : Nat)
    (s : CState) (tid reason : String) :
    (blockDependentTasks now e b s tid reason).final_reports = s.final_reports := rfl

theorem enterFixLoop_final_reports (now : String) (e b : Nat) (s : CState)
    (tid : String) (fs : List Finding) :
    (enterFixLoop now e b s tid fs).final_reports = s.final_reports := by
  unfold enterFixLoop
  cases s.tasks.find? (fun t => t.task_id = tid) <;> rfl

theorem updateTaskToCompleted_final_reports (now : String) (s : CState)
    (tid : String) :
    (updateTaskToCompleted now s tid).final_reports = s.final_reports := by
  unfold updateTaskToCompleted
  cases lookupLastTask s.tasks tid <;> rfl

theorem hasExisting_only_depends_on_reports (s s' : CState) (tid : String)
    (h : s.final_reports = s'.final_reports) :
    hasExistingFinalReport s tid = hasExistingFinalReport s' tid := by
  simp [hasExistingFinalReport, h]

theorem hasExisting_addFinalReport (s : CState) (rep : FinalReport) :
    hasExistingFinalReport (addFinalReport s rep) rep.task_id = true := by
  simp only [hasExistingFinalReport, addFinalReport, List.any_append,
    List.any_cons, List.any_nil, Bool.or_eq_true]
  right
  simp [lookupKey, finalReportToDict]

theorem consolidateFindings_none_iff (now : String) (s : CState) (tid : String) :
    consolidateFindings now s tid = none ↔ getReviewFindingsForTask s tid = [] := by
  by_cases hemp : getReviewFindingsForTask s tid = [] <;>
    simp [consolidateFindings, hemp]

theorem consolidateFindings_task_id (now : String) (s : CState) (tid : String)
    (rep : FinalReport) (h : consolidateFindings now s tid = some rep) :
    rep.task_id = tid := by
  by_cases hemp : getReviewFindingsForTask s tid = []
  · simp [consolidateFindings, hemp] at h
  · simp only [consolidateFindings, hemp, if_false] at h
    cases h
    rfl

/-- After the first call creates (or skips) a report, a second call finds an
existing report (or again nothing to do): it returns no report and does not
change `final_reports`. -/
theorem consolidate_second_call_is_noop (now1 now2 : String) (e1 b1 e2 b2 : Nat)
    (state : CState) (taskId : String) (auto1 auto2 : Bool) :
    consolidateSingleTask now2 e2 b2
        (consolidateSingleTask now1 e1 b1 state taskId auto1).2 taskId auto2 =
      (none, (consolidateSingleTask now1 e1 b1 state taskId auto1).2) := by
  by_cases hex : hasExistingFinalReport state taskId
  · simp [consolidateSingleTask, hex]
  · cases hf : consolidateFindings now1 state taskId with
    | none =>
        have hempty : getReviewFindingsForTask state taskId = [] :=
          (consolidateFindings_none_iff now1 state taskId).mp hf
        have hf2 : consolidateFindings now2 state taskId = none :=
          (consolidateFindings_none_iff now2 state taskId).mpr hempty
        simp [consolidateSingleTask, hex, hf, hf2]
    | some rep =>
        have htid : rep.task_id = taskId :=
          consolidateFindings_task_id now1 state taskId rep hf
        set s1 := (consolidateSingleTask now1 e1 b1 state taskId auto1).2 with hs1
        have hrep : s1.final_reports = (addFinalReport state rep).final_reports := by
          rw [hs1]
          simp only [consolidateSingleTask, hex, Bool.false_eq_true, if_false, hf]
          by_cases hfix : shouldEnterFixLoop rep.overall_severity
          · simp [hfix, enterFixLoop_final_reports]
          · by_cases hauto : auto1 = true
            · simp [hfix, hauto, updateTaskToCompleted_final_reports]
            · simp [hfix, hauto]
        have hex1 : hasExistingFinalReport s1 taskId = true := by
          rw [hasExisting_only_depends_on_reports s1 (addFinalReport state rep)
            taskId hrep, ← htid]
          exact hasExisting_addFinalReport state rep
        simp [consolidateSingleTask, hex1]

/-- C9: single-task review consolidation is idempotent — after a first call
to `consolidate_single_task` for a task, a second call returns no report
and leaves the state's `final_reports` list unchanged (so at most one final
report per task id is ever created by it). -/
theorem consolidate_single_task_idempotent (now1 now2 : String)
    (e1 b1 e2 b2 : Nat) (state : CState) (taskId : String) (auto1 auto2 : Bool) :
    (consolidateSingleTask now2 e2 b2
        (consolidateSingleTask now1 e1 b1 state taskId auto1).2 taskId auto2).1 =
      none ∧
    (consolidateSingleTask now2 e2 b2
        (consolidateSingleTask now1 e1 b1 state taskId auto1).2 taskId auto2).2.final_reports =
      (consolidateSingleTask now1 e1 b1 state taskId auto1).2.final_reports := by
  rw [consolidate_second_call_is_noop now1 now2 e1 b1 e2 b2 state taskId auto1 auto2]
  exact ⟨rfl, rfl⟩

/-- C7 counterexample: consolidating a task with one (minor) finding appends
exactly one record to `final_reports`, and that record has no `findings`
key — `FinalReport.to_dict` omits the findings snapshot. -/
theorem final_report_record_lacks_findings :
    (consolidateSingleTask "T0" 1 4 c7State "1" true).2.final_reports.length = 1 ∧
    ((consolidateSingleTask "T0" 1 4 c7State "1" true).2.final_reports.all
      (fun rep => (lookupKey rep "findings").isNone)) = true := by
  exact ⟨rfl, rfl⟩

/-- C7 amended: every record `add_final_report` appends to `final_reports`
carries exactly the keys `task_id`, `overall_severity`, `summary`,
`finding_count` and `created_at`; the `findings` snapshot kept on the
in-memory `FinalReport` is not part of the serialized record. -/
theorem final_report_record_fields (state : CState) (report : FinalReport) :
    (addFinalReport state report).final_reports =
      state.final_reports ++ [finalReportToDict report] ∧
    (finalReportToDict report).map Prod.fst =
      ["task_id", "overall_severity", "summary", "finding_count", "created_at"] ∧
    lookupKey (finalReportToDict report) "findings" = none :=
  ⟨rfl, rfl, rfl⟩

/-- Witness for C4's amended theorem at a concrete input. -/
theorem seq_timeout_characterization_witness :
    (10000 : Int) < 120000 ∧ 60 ≤ (120000 : Int) / 1000 ∧
    seqResolveTimeoutSeconds (EnvNum.numeric 120000) 7 =
      resolveCodexTimeoutSeconds (EnvNum.numeric 120000) 7 0 :=
  ⟨by decide, by decide,
    (seq_timeout_characterization 7).2.2.2.2 120000 (by decide) (by decide)⟩

end Orchestration
